import Mathlib

/-!
Verification of the Nextflow Tower project-provisioning scripts
(`bin/configure-tower-projects.py`, together with the historical variant
`bin/configure-tower-project.py` where a claim names it).

The Python code is shallowly embedded.  Pure helpers (tag sanitization,
email extraction from assumed-role ARNs, compute-environment specification
building) become Lean functions on lists and strings.  The stateful
reconciliation calls against the Tower API become explicit state passing
over a `Remote` record that models the remote control plane, paired with a
trace of the mutation requests issued (`Event`).  The semantics of the
remote endpoints themselves (what a POST/PUT creates) follows the contract
the script relies on: a create appends an entity with a fresh identifier,
a GET lists the stored entities, a DELETE on a compute environment with
active jobs answers with a "has active jobs" message and deletes nothing.
-/

namespace TowerInfra

/-! ## Tag derivation (`Projects.extract_tags`) -/

/-- One character of the class `[A-z0-9_-]` appearing (negated) in the
script's `invalid_chars` regex.  Note the `A-z` range: beyond the letters it
also admits the ASCII characters between `Z` and `a` (square brackets,
backslash, caret, underscore, backtick). -/
def isTagChar (c : Char) : Bool :=
  ('A' ≤ c && c ≤ 'z') || ('0' ≤ c && c ≤ '9') || c = '_' || c = '-'

/-- `re.sub(r"[^A-z0-9_-]+", "_", s)` on the character list: each maximal
run of characters outside the class becomes a single underscore.  The flag
records whether the previous character was part of such a run. -/
def squashInvalid : Bool → List Char → List Char
  | _, [] => []
  | prevInvalid, c :: rest =>
    if isTagChar c then c :: squashInvalid false rest
    else if prevInvalid then squashInvalid true rest
    else '_' :: squashInvalid true rest

/-- `invalid_chars.sub("_", s)` from `Projects.extract_tags`. -/
def sanitizeTag (s : String) : String := ⟨squashInvalid false s.data⟩

/-- The characters removed by Python `str.strip()` on ASCII input. -/
def pyIsSpace (c : Char) : Bool :=
  c = ' ' || c = '\t' || c = '\n' || c = '\r' || c = '\x0b' || c = '\x0c'

/-- Python `str.strip()`. -/
def pyStrip (cs : List Char) : List Char :=
  ((cs.dropWhile pyIsSpace).reverse.dropWhile pyIsSpace).reverse

/-- Python `s.endswith(suffix)` on the underlying character lists (Lean's
`String.endsWith` is byte-based and does not reduce in the kernel). -/
def pyEndsWith (s sfx : String) : Bool :=
  List.isSuffixOf sfx.data s.data

/-- `s.rpartition("/")[2]`: the part after the last slash, or the whole
string when no slash occurs. -/
def afterLastSlash (cs : List Char) : List Char :=
  (cs.reverse.takeWhile (fun c => c ≠ '/')).reverse

/-- Python `dict` lookup on an association list (keys unique). -/
def dlookup (k : String) : List (String × String) → Option String
  | [] => none
  | (k', v) :: rest => if k' = k then some v else dlookup k rest

/-- Python `d[k] = v`: update in place when the key exists, append
otherwise. -/
def dinsert (k v : String) : List (String × String) → List (String × String)
  | [] => [(k, v)]
  | (k', v') :: rest => if k' = k then (k, v) :: rest else (k', v') :: dinsert k v rest

/-- Python `d.pop(k)` (the removal part). -/
def dremove (k : String) : List (String × String) → List (String × String)
  | [] => []
  | (k', v') :: rest => if k' = k then rest else (k', v') :: dremove k rest

/-- `stack_tags["TowerProject"] = stack_name`. -/
def towerProjectTag (stackName : String) (tags : List (String × String)) :
    List (String × String) :=
  dinsert "TowerProject" stackName tags

/-- The cost-center special case: keep only the program code (the part
after the last slash, stripped of surrounding whitespace). -/
def costCenterAdjust (tags : List (String × String)) : List (String × String) :=
  match dlookup "CostCenter" tags with
  | some v => dinsert "CostCenter" ⟨pyStrip (afterLastSlash v.data)⟩ tags
  | none => tags

/-- The sanitization loop `for key in original_keys: val = stack_tags.pop(key);
stack_tags[new_key] = new_val`.  `pop` on a missing key is a `KeyError`. -/
def sanitizeLoop : List String → List (String × String) → Except String (List (String × String))
  | [], d => .ok d
  | k :: rest, d =>
    match dlookup k d with
    | none => .error ("KeyError: " ++ k)
    | some v => sanitizeLoop rest (dinsert (sanitizeTag k) (sanitizeTag v) (dremove k d))

/-- `Projects.extract_tags` for one project config: add the `TowerProject`
tag, truncate the cost center, then sanitize every key and value. -/
def extract_tags (stackName : String) (stackTags : List (String × String)) :
    Except String (List (String × String)) :=
  let d := costCenterAdjust (towerProjectTag stackName stackTags)
  sanitizeLoop (d.map (fun kv => kv.1)) d

/-- A character of the class `[A-Za-z0-9_-]` named by the specification
sentence for tag sanitization. -/
def isClaimTagChar (c : Char) : Bool :=
  c.isAlpha || c.isDigit || c = '_' || c = '-'

/-- Tag sanitization as the specification sentence words it: every
character outside `[A-Za-z0-9_-]` is replaced by an underscore,
character by character. -/
def claimSanitize (s : String) : String :=
  ⟨s.data.map (fun c => if isClaimTagChar c then c else '_')⟩

/-- Tag derivation exactly as the claim words it: the descriptor tags
augmented with a `Project=<stack name>` tag, the cost-center value truncated
to its last path segment, then the per-character sanitization above applied
to every key and value.  Used only to compare against `extract_tags`. -/
def extract_tags_claimed (stackName : String) (stackTags : List (String × String)) :
    List (String × String) :=
  let d := dinsert "Project" stackName stackTags
  let d' := match dlookup "CostCenter" d with
    | some v => dinsert "CostCenter" ⟨afterLastSlash v.data⟩ d
    | none => d
  d'.map (fun kv => (claimSanitize kv.1, claimSanitize kv.2))

/-! ## Email extraction from assumed-role ARNs
(`Projects.extract_emails` in `configure-tower-projects.py` and
`extract_emails_from_arns` in `configure-tower-project.py`) -/

/-- The local-part class `[A-Za-z0-9._%+-]` of the session-name regex. -/
def isLocalChar (c : Char) : Bool :=
  c.isAlpha || c.isDigit || c = '.' || c = '_' || c = '%' || c = '+' || c = '-'

/-- The domain class `[A-Za-z0-9.-]`. -/
def isDomainChar (c : Char) : Bool :=
  c.isAlpha || c.isDigit || c = '.' || c = '-'

/-- The TLD class `[A-Z|a-z]` (the pipe is a literal member of the class,
a quirk of the source regex). -/
def isTldChar (c : Char) : Bool :=
  c.isAlpha || c = '|'

/-- Full match of `[A-Za-z0-9._%+-]+@[A-Za-z0-9.-]+\.[A-Z|a-z]{2,}`.
Since the classes exclude `@`, the local part runs to the first `@`; since
the TLD class excludes `.`, the matched dot is the last dot after `@`, so
the greedy regex match is captured deterministically. -/
def matchEmail (cs : List Char) : Bool :=
  let lpart := cs.takeWhile (fun c => c ≠ '@')
  match cs.dropWhile (fun c => c ≠ '@') with
  | [] => false
  | _ :: after =>
    let tldRev := after.reverse.takeWhile (fun c => c ≠ '.')
    match after.reverse.dropWhile (fun c => c ≠ '.') with
    | [] => false
    | _ :: domRev =>
      !lpart.isEmpty && lpart.all isLocalChar &&
      !domRev.isEmpty && domRev.all isDomainChar &&
      decide (2 ≤ tldRev.length) && tldRev.all isTldChar

/-- `re.fullmatch(r".*/(?P<session_name>…email…)", arn)` and its captured
group.  Because the email classes exclude `/`, the capture must start after
the last slash; the `.*` part excludes newlines. -/
def sessionOfCore (cs : List Char) : Option (List Char) :=
  if cs.contains '/' then
    let sess := (cs.reverse.takeWhile (fun c => c ≠ '/')).reverse
    let pre := ((cs.reverse.dropWhile (fun c => c ≠ '/')).reverse).dropLast
    if pre.all (fun c => c ≠ '\n') && matchEmail sess then some sess else none
  else none

def sessionOf (arn : String) : Option String :=
  (sessionOfCore arn.data).map (fun l => ⟨l⟩)

/-- One iteration of the `for arn in arns` loop of
`Projects.extract_emails`: add the captured session name to the set
(modelled as a duplicate-free list); a non-matching ARN is only warned
about and skipped. -/
def extract_emails_step (acc : List String) (arn : String) : List String :=
  match sessionOf arn with
  | some e => if e ∈ acc then acc else acc ++ [e]
  | none => acc

/-- `Projects.extract_emails`. -/
def extract_emails (arns : List String) : List String :=
  arns.foldl extract_emails_step []

/-- Full match of
`arn:aws:sts::([0-9]+):assumed-role/([^/]+)/(…email…)` and its session-name
group, from the older `configure-tower-project.py` variant.  The account
part is a maximal digit run followed by the literal `:assumed-role/`; the
role part runs to the first slash; the email classes exclude `/`, so the
session must be the whole remainder. -/
def strictSessionOf (arn : String) : Option String :=
  let cs := arn.data
  let p₁ := "arn:aws:sts::".data
  if p₁.isPrefixOf cs then
    let r₁ := cs.drop p₁.length
    let acct := r₁.takeWhile Char.isDigit
    let r₂ := r₁.dropWhile Char.isDigit
    let p₂ := ":assumed-role/".data
    if !acct.isEmpty && p₂.isPrefixOf r₂ then
      let r₃ := r₂.drop p₂.length
      let rolePart := r₃.takeWhile (fun c => c ≠ '/')
      match r₃.dropWhile (fun c => c ≠ '/') with
      | [] => none
      | _ :: sess => if !rolePart.isEmpty && matchEmail sess then some ⟨sess⟩ else none
    else none
  else none

/-- One iteration of the loop of `extract_emails_from_arns`: matches are
appended in order, non-matching ARNs are silently skipped. -/
def extract_strict_step (acc : List String) (arn : String) : List String :=
  match strictSessionOf arn with
  | some e => acc ++ [e]
  | none => acc

/-- `extract_emails_from_arns` from `configure-tower-project.py`. -/
def extract_emails_from_arns (arns : List String) : List String :=
  arns.foldl extract_strict_step []

/-- The ARN shape named by the specification:
`arn:aws:sts::<acct>:assumed-role/<role>/<session>`. -/
def mkArn (acct rolePart sessionName : String) : String :=
  "arn:aws:sts::" ++ acct ++ ":assumed-role/" ++ rolePart ++ "/" ++ sessionName

/-- The email shape named by the specification: `<local>@<domain>.<tld>`. -/
def mkEmail (lp dom tld : String) : String :=
  lp ++ "@" ++ dom ++ "." ++ tld

/-- Well-formedness of the `<acct>` and `<role>` ARN parts: a nonempty
digit account and a nonempty role without slashes or newlines. -/
def wfArnParts (acct rolePart : String) : Bool :=
  !acct.data.isEmpty && acct.data.all Char.isDigit &&
  !rolePart.data.isEmpty &&
  rolePart.data.all (fun c => decide (c ≠ '/') && decide (c ≠ '\n'))

/-- Well-formedness of the email parts: nonempty local part over the local
class, nonempty domain over the domain class, an alphabetic TLD of length
at least two. -/
def wfEmailParts (lp dom tld : String) : Bool :=
  !lp.data.isEmpty && lp.data.all isLocalChar &&
  !dom.data.isEmpty && dom.data.all isDomainChar &&
  decide (2 ≤ tld.data.length) && tld.data.all Char.isAlpha

/-! ## The `Users` class -/

structure Users where
  owners : List String
  admins : List String
  maintainers : List String
  launchers : List String
  viewers : List String
  deriving DecidableEq, Repr

/-- `Users.list_users`, keeping the `(email, Tower role)` components that
`populate` consumes; the five role buckets are yielded in the fixed order
of the source's `role_mapping` dict. -/
def Users.list_users (u : Users) : List (String × String) :=
  u.owners.map (fun e => (e, "owner")) ++ u.admins.map (fun e => (e, "admin")) ++
  u.maintainers.map (fun e => (e, "maintain")) ++ u.launchers.map (fun e => (e, "launch")) ++
  u.viewers.map (fun e => (e, "view"))

/-! ## Remote entities and state -/

structure Org where
  orgId : Nat
  fullName : String
  name : String
  deriving DecidableEq, Repr

structure Workspace where
  id : Nat
  name : String
  fullName : String
  deriving DecidableEq, Repr

structure Member where
  memberId : Nat
  email : String
  deriving DecidableEq, Repr

structure Participant where
  participantId : Nat
  memberId : Option Nat
  teamId : Option Nat
  wspRole : String
  deriving DecidableEq, Repr

structure Credential where
  id : Nat
  name : String
  provider : String
  deleted : Option String
  deriving DecidableEq, Repr

structure ResourceLabel where
  id : Nat
  name : String
  value : String
  deriving DecidableEq, Repr

structure ComputeEnv where
  id : Nat
  name : String
  platform : String
  status : String
  activeJobs : Bool
  deriving DecidableEq, Repr

/-- The CloudFormation stack outputs the script reads (the output mapping
restricted to the keys `TowerWorkspace` actually accesses). -/
structure StackOutputs where
  towerForgeServiceUserAccessKeySecretArn : String
  towerForgeServiceRoleArn : String
  towerForgeBatchWorkJobRoleArn : String
  towerForgeBatchExecutionRoleArn : String
  towerForgeBatchHeadJobRoleArn : String
  towerScratch : String
  deriving DecidableEq, Repr

/-- The VPC stack outputs the script reads (`VPCId` and the four private
subnets). -/
structure VpcOutputs where
  vpcId : String
  privateSubnet : String
  privateSubnet1 : String
  privateSubnet2 : String
  privateSubnet3 : String
  deriving DecidableEq, Repr

def CE_VERSION : String := "v12"

def REGION : String := "us-east-1"

def NONGPU_EC2_INSTANCE_TYPES : List String :=
  ["c6a.large", "c5a.large", "c6i.large", "m5a.large", "m6a.large",
   "m6i.large", "r5a.large", "r6a.large", "r6i.large",
   "c6a.xlarge", "c5a.xlarge", "c6i.xlarge", "m5a.xlarge", "m6a.xlarge",
   "m6i.xlarge", "r5a.xlarge", "r6a.xlarge", "r6i.xlarge",
   "c6a.2xlarge", "c5a.2xlarge", "c6i.2xlarge", "m5a.2xlarge", "m6a.2xlarge",
   "m6i.2xlarge", "r5a.2xlarge", "r6a.2xlarge", "r6i.2xlarge",
   "c6a.4xlarge", "c5a.4xlarge", "c6i.4xlarge", "m5a.4xlarge", "m6a.4xlarge",
   "m6i.4xlarge", "r5a.4xlarge", "r6a.4xlarge", "r6i.4xlarge",
   "c6a.8xlarge", "c5a.8xlarge", "c6i.8xlarge", "m5a.8xlarge", "m6a.8xlarge",
   "m6i.8xlarge", "r5a.8xlarge", "r6a.8xlarge", "r6i.8xlarge"]

/-- `ECS_CONFIG.strip()`: the module constant with its surrounding newlines
removed, as it is embedded in the forge configuration. -/
def ECS_CONFIG_STRIPPED : String :=
  "ECS_CONTAINER_STOP_TIMEOUT=10m\nECS_CONTAINER_START_TIMEOUT=10m\nECS_CONTAINER_CREATE_TIMEOUT=10m"

/-- The `forge` sub-dictionary of the compute-environment request. -/
structure ForgeConfig where
  allocStrategy : String
  allowBuckets : List String
  containerRegIds : Option String
  disposeOnDeletion : Bool
  dragenEnabled : Option Bool
  ebsAutoScale : Bool
  ebsBlockSize : Nat
  ebsBootSize : Nat
  ec2KeyPair : Option String
  ecsConfig : String
  efsCreate : Bool
  gpuEnabled : Bool
  imageId : Option String
  instanceTypes : List String
  maxCpus : Nat
  minCpus : Nat
  securityGroups : List String
  subnets : List String
  type : String
  vpcId : String
  deriving DecidableEq, Repr

/-- The `config` sub-dictionary of the compute-environment request. -/
structure CEConfig where
  cliPath : String
  computeJobRole : String
  configMode : String
  credentials : Option String
  environment : Option String
  executionRole : String
  fusion2Enabled : Bool
  headJobCpus : Nat
  headJobMemoryMb : Nat
  headJobRole : String
  logGroup : Option String
  nvnmeStorageEnabled : Bool
  postRunScript : Option String
  preRunScript : String
  region : String
  resourceLabelIds : List Nat
  waveEnabled : Bool
  workDir : String
  forge : ForgeConfig
  deriving DecidableEq, Repr

/-- The full compute-environment creation request body. -/
structure CESpec where
  labelIds : List Nat
  name : String
  platform : String
  credentialsId : Nat
  config : CEConfig
  deriving DecidableEq, Repr

/-- The mutation requests the script issues against the remote control
plane (GET listings are read-only and not traced), plus
`credentialsEnsured`, which marks the identifier returned by
`create_credentials`. -/
inductive Event where
  | orgCreate (fullName : String)
  | workspaceCreate (name : String)
  | memberAdd (email : String)
  | participantAdd (identifier : Nat)
  | participantRoleSet (participantId : Nat) (role : String)
  | participantRemove (participantId : Nat)
  | secretRead (secretArn : String)
  | credentialsCreate (name : String)
  | credentialsEnsured (id : Nat)
  | labelCreate (name value : String)
  | ceDelete (id : Nat)
  | ceSkipLogged (name : String)
  | ceCreate (spec : CESpec)
  | cePrimarySet (id : Nat)
  deriving DecidableEq, Repr

/-- The remote Tower state the script reconciles (one organization
context); `nextId` supplies fresh identifiers for created entities. -/
structure Remote where
  orgs : List Org
  workspaces : List Workspace
  members : List Member
  participants : List Participant
  credentials : List Credential
  labels : List ResourceLabel
  computeEnvs : List ComputeEnv
  nextId : Nat
  deriving DecidableEq, Repr

/-- What a `TowerWorkspace` instance carries: its stack name, the stack and
VPC outputs, the desired tags, users and teams. -/
structure WsConfig where
  stackName : String
  stack : StackOutputs
  vpc : VpcOutputs
  tags : List (String × String)
  users : Option Users
  teams : Option (List (Nat × String))
  deriving DecidableEq, Repr

/-! ## `TowerOrganization` operations -/

namespace TowerOrganization

/-- `TowerOrganization.create`: list the organizations, return the first
whose full name matches, otherwise POST a new one (the remote appends it
with a fresh identifier). -/
def create (fullName name : String) (s : Remote) : Nat × Remote × List Event :=
  match s.orgs.find? (fun o => o.fullName = fullName) with
  | some o => (o.orgId, s, [])
  | none =>
    let o : Org := { orgId := s.nextId, fullName := fullName, name := name }
    (s.nextId, { s with orgs := s.orgs ++ [o], nextId := s.nextId + 1 },
     [Event.orgCreate fullName])

/-- `TowerOrganization.add_member`: search members by email (the search is
modelled as exact email filtering); on a unique hit whose email matches,
reuse it, otherwise PUT `/add` (the remote appends a fresh member). -/
def add_member (email : String) (s : Remote) : Member × Remote × List Event :=
  let hits := s.members.filter (fun m => m.email = email)
  if hits.length = 1 && (hits.headD ⟨0, ""⟩).email = email then
    (hits.headD ⟨0, ""⟩, s, [])
  else
    let m : Member := { memberId := s.nextId, email := email }
    (m, { s with members := s.members ++ [m], nextId := s.nextId + 1 },
     [Event.memberAdd email])

end TowerOrganization

/-! ## `TowerWorkspace` operations -/

namespace TowerWorkspace

/-- `TowerWorkspace.create`: get-or-create the workspace by its derived
valid name under the organization. -/
def create (name fullName : String) (s : Remote) : Nat × Remote × List Event :=
  match s.workspaces.find? (fun w => w.name = name) with
  | some w => (w.id, s, [])
  | none =>
    let w : Workspace := { id := s.nextId, name := name, fullName := fullName }
    (s.nextId, { s with workspaces := s.workspaces ++ [w], nextId := s.nextId + 1 },
     [Event.workspaceCreate name])

/-- `TowerWorkspace.set_participant_role`: PUT the role of the given
participant. -/
def set_participant_role (pid : Nat) (role : String) (s : Remote) : Remote × List Event :=
  ({ s with participants := (s.participants.map
      (fun p => if p.participantId = pid then { p with wspRole := role } else p)) },
   [Event.participantRoleSet pid role])

/-- `TowerWorkspace.add_participant`: list the participants, match on the
member/team identifier; reuse the unique match, otherwise PUT `/add` (the
remote appends a fresh participant); in both cases the role is then set
unconditionally. -/
def add_participant (role : String) (identifier : Nat) (asTeam : Bool) (s : Remote) :
    Nat × Remote × List Event :=
  let hits := s.participants.filter
    (fun p => p.teamId = some identifier || p.memberId = some identifier)
  if hits.length = 1 then
    let p := hits.headD ⟨0, none, none, ""⟩
    let r := set_participant_role p.participantId role s
    (p.participantId, r.1, r.2)
  else
    let newP : Participant :=
      if asTeam then ⟨s.nextId, none, some identifier, "launch"⟩
      else ⟨s.nextId, some identifier, none, "launch"⟩
    let s₁ := { s with participants := s.participants ++ [newP], nextId := s.nextId + 1 }
    let r := set_participant_role newP.participantId role s₁
    (newP.participantId, r.1, Event.participantAdd identifier :: r.2)

/-- `TowerWorkspace.remove_participant`: DELETE the participant. -/
def remove_participant (pid : Nat) (s : Remote) : Remote × List Event :=
  ({ s with participants := s.participants.filter (fun q => q.participantId ≠ pid) },
   [Event.participantRemove pid])

/-- `TowerWorkspace.list_owner_participant_ids`. -/
def list_owner_participant_ids (s : Remote) : List Nat :=
  (s.participants.filter (fun p => p.wspRole = "owner")).map (fun p => p.participantId)

/-- `self.org.members[user]`, the lookup `populate` performs before adding
a participant (a missing member is a Python `KeyError`). -/
def memberLookup (s : Remote) (email : String) : Option Member :=
  s.members.find? (fun m => m.email = email)

/-- The `for user, _, role in self.users.list_users()` loop of `populate`:
upsert every desired user and collect the verified participant ids. -/
def upsert_users : List (String × String) → Remote → List Nat →
    Except String (List Nat × Remote × List Event)
  | [], s, verified => .ok (verified, s, [])
  | (u, r) :: rest, s, verified =>
    match memberLookup s u with
    | none => .error ("KeyError: " ++ u)
    | some m =>
      let a := add_participant r m.memberId false s
      match upsert_users rest a.2.1 (verified ++ [a.1]) with
      | .error e => .error e
      | .ok (vids, s', evs) => .ok (vids, s', a.2.2 ++ evs)

/-- The `for part in self.list_participants()` removal loop of `populate`:
remove every participant of the snapshot whose id is not verified. -/
def remove_stale (verified : List Nat) : List Participant → Remote → Remote × List Event
  | [], s => (s, [])
  | p :: rest, s =>
    if p.participantId ∈ verified then remove_stale verified rest s
    else
      let r := remove_participant p.participantId s
      let r' := remove_stale verified rest r.1
      (r'.1, r.2 ++ r'.2)

/-- The `for team_id, role in self.teams.items()` loop of `populate`. -/
def upsert_teams : List (Nat × String) → Remote → Remote × List Event
  | [], s => (s, [])
  | (tid, r) :: rest, s =>
    let a := add_participant r tid true s
    let r' := upsert_teams rest a.2.1
    (r'.1, a.2.2 ++ r'.2)

/-- The `if self.teams:` tail of `populate` (an empty dict is falsy). -/
def populate_teams (cfg : WsConfig) (s : Remote) : Remote × List Event :=
  match cfg.teams with
  | some ts => if ts.isEmpty then (s, []) else upsert_teams ts s
  | none => (s, [])

/-- `TowerWorkspace.populate`: record the owner participant ids, upsert the
desired users, remove every other pre-existing participant, then handle
teams. -/
def populate (cfg : WsConfig) (s : Remote) : Except String (Remote × List Event) :=
  match cfg.users with
  | some us =>
    let ownerIds := list_owner_participant_ids s
    match upsert_users us.list_users s [] with
    | .error e => .error e
    | .ok (pids, s₁, ev₁) =>
      let r := remove_stale (ownerIds ++ pids) s₁.participants s₁
      let r' := populate_teams cfg r.1
      .ok (r'.1, ev₁ ++ r.2 ++ r'.2)
  | none =>
    let r := populate_teams cfg s
    .ok (r.1, r.2)

/-- `TowerWorkspace.create_credentials`: find the credential named after
the stack; assert it is an `aws` credential and not soft-deleted; otherwise
read the secret and POST a new credential entry.  The returned identifier
is marked by a `credentialsEnsured` event. -/
def create_credentials (cfg : WsConfig) (s : Remote) :
    Except String (Nat × Remote × List Event) :=
  match s.credentials.find? (fun c => c.name = cfg.stackName) with
  | some c =>
    if c.provider = "aws" then
      if c.deleted = none then .ok (c.id, s, [Event.credentialsEnsured c.id])
      else .error "AssertionError: credential is soft-deleted"
    else .error "AssertionError: credential provider is not aws"
  | none =>
    let cid := s.nextId
    let c : Credential := { id := cid, name := cfg.stackName, provider := "aws", deleted := none }
    .ok (cid, { s with credentials := s.credentials ++ [c], nextId := cid + 1 },
         [Event.secretRead cfg.stack.towerForgeServiceUserAccessKeySecretArn,
          Event.credentialsCreate cfg.stackName, Event.credentialsEnsured cid])

/-- `TowerWorkspace.get_resource_label`: paginated listing filtered by name
then by value; a unique match yields its id.  (The listing elements are
records here, so the dict-shape `ValueError` branch of the source cannot
trigger.) -/
def get_resource_label (name value : String) (s : Remote) : Option Nat :=
  let hits := (s.labels.filter (fun l => l.name = name)).filter (fun l => l.value = value)
  if hits.length = 1 then some ((hits.headD ⟨0, "", ""⟩).id) else none

/-- `TowerWorkspace.create_resource_label`: get-or-create by the
(name, value) pair. -/
def create_resource_label (name value : String) (s : Remote) : Nat × Remote × List Event :=
  match get_resource_label name value s with
  | some lid => (lid, s, [])
  | none =>
    let lid := s.nextId
    (lid, { s with labels := s.labels ++ [⟨lid, name, value⟩], nextId := lid + 1 },
     [Event.labelCreate name value])

/-- The `for key, value in self.tags.items()` loop of
`generate_compute_environment`, collecting the resource-label ids. -/
def ensure_labels : List (String × String) → Remote → List Nat × Remote × List Event
  | [], s => ([], s, [])
  | (k, v) :: rest, s =>
    let r₁ := create_resource_label k v s
    let r₂ := ensure_labels rest r₁.2.1
    (r₁.1 :: r₂.1, r₂.2.1, r₁.2.2 ++ r₂.2.2)

/-- `TowerWorkspace.has_launchers`: whether any desired user or team holds
a launch-capable role. -/
def has_launchers (cfg : WsConfig) : Bool :=
  let launcherRoles := ["owner", "admin", "maintain", "launch"]
  (match cfg.users with
   | some us => us.list_users.any (fun ur => launcherRoles.contains ur.2)
   | none => false) ||
  (match cfg.teams with
   | some ts => ts.any (fun tr => launcherRoles.contains tr.2)
   | none => false)

/-- The body of `TowerWorkspace.cleanup_compute_environments`, iterating
over the snapshot of listed compute environments.  An environment whose
name carries the current version in a workspace with launchers is kept;
otherwise a DELETE is issued; the remote refuses with a "has active jobs"
message (and deletes nothing) when the environment has active jobs, which
the script logs and skips. -/
def cleanup_loop (cfg : WsConfig) : List ComputeEnv → Remote → Remote × List Event
  | [], s => (s, [])
  | ce :: rest, s =>
    if pyEndsWith ce.name CE_VERSION && has_launchers cfg then cleanup_loop cfg rest s
    else if ce.activeJobs then
      let r := cleanup_loop cfg rest s
      (r.1, Event.ceDelete ce.id :: Event.ceSkipLogged ce.name :: r.2)
    else
      let s₁ := { s with computeEnvs := s.computeEnvs.filter (fun q => q.id ≠ ce.id) }
      let r := cleanup_loop cfg rest s₁
      (r.1, Event.ceDelete ce.id :: r.2)

/-- `TowerWorkspace.cleanup_compute_environments`. -/
def cleanup_compute_environments (cfg : WsConfig) (s : Remote) : Remote × List Event :=
  cleanup_loop cfg s.computeEnvs s

/-- The request body built at the end of
`TowerWorkspace.generate_compute_environment`, as a pure function of the
stack outputs, the VPC outputs, the environment name, the pricing model and
the resolved label and credential identifiers. -/
def generate_compute_environment_data (stack : StackOutputs) (vpc : VpcOutputs)
    (name model : String) (labelIds : List Nat) (credentialsId : Nat) : CESpec :=
  let allocStrategy := if model = "SPOT" then "SPOT_CAPACITY_OPTIMIZED" else "BEST_FIT"
  { labelIds := labelIds
    name := name
    platform := "aws-batch"
    credentialsId := credentialsId
    config := {
      cliPath := "/home/ec2-user/miniconda/bin/aws"
      computeJobRole := stack.towerForgeBatchWorkJobRoleArn
      configMode := "Batch Forge"
      credentials := none
      environment := none
      executionRole := stack.towerForgeBatchExecutionRoleArn
      fusion2Enabled := false
      headJobCpus := 8
      headJobMemoryMb := 15000
      headJobRole := stack.towerForgeBatchHeadJobRoleArn
      logGroup := none
      nvnmeStorageEnabled := false
      postRunScript := none
      preRunScript := "NXF_OPTS=" ++ '\x27'.toString ++ "-Xms7g -Xmx14g" ++ '\x27'.toString
      region := REGION
      resourceLabelIds := labelIds
      waveEnabled := true
      workDir := "s3://" ++ stack.towerScratch ++ "/work"
      forge := {
        allocStrategy := allocStrategy
        allowBuckets := []
        containerRegIds := none
        disposeOnDeletion := true
        dragenEnabled := none
        ebsAutoScale := true
        ebsBlockSize := 1000
        ebsBootSize := 1000
        ec2KeyPair := none
        ecsConfig := ECS_CONFIG_STRIPPED
        efsCreate := false
        gpuEnabled := false
        imageId := none
        instanceTypes := NONGPU_EC2_INSTANCE_TYPES
        maxCpus := 1000
        minCpus := 0
        securityGroups := []
        subnets := [vpc.privateSubnet, vpc.privateSubnet1, vpc.privateSubnet2, vpc.privateSubnet3]
        type := model
        vpcId := vpc.vpcId } } }

/-- `TowerWorkspace.generate_compute_environment`: assert the pricing
model, ensure the credentials, get-or-create a resource label per tag, then
build the request body. -/
def generate_compute_environment (cfg : WsConfig) (name model : String) (s : Remote) :
    Except String (CESpec × Remote × List Event) :=
  if model = "SPOT" || model = "EC2" then
    match create_credentials cfg s with
    | .error e => .error e
    | .ok (cid, s₁, ev₁) =>
      let r := ensure_labels cfg.tags s₁
      .ok (generate_compute_environment_data cfg.stack cfg.vpc name model r.1 cid,
           r.2.1, ev₁ ++ r.2.2)
  else .error "AssertionError: Wrong provisioning model"

/-- The scan over the listed compute environments at the start of
`create_compute_environment`; a later match overwrites an earlier one. -/
def find_existing_ces (spotName ec2Name : String) (ces : List ComputeEnv) :
    Option Nat × Option Nat :=
  ces.foldl (fun acc ce =>
    if ce.platform = "aws-batch" && (ce.status = "AVAILABLE" || ce.status = "CREATING") then
      if ce.name = spotName then (some ce.id, acc.2)
      else if ce.name = ec2Name then (acc.1, some ce.id)
      else acc
    else acc) (none, none)

/-- The remote effect of `POST /compute-envs`: a fresh compute environment
in `CREATING` state. -/
def create_ce_remote (ceName : String) (s : Remote) : Nat × Remote :=
  let ce : ComputeEnv :=
    { id := s.nextId, name := ceName, platform := "aws-batch",
      status := "CREATING", activeJobs := false }
  (s.nextId, { s with computeEnvs := s.computeEnvs ++ [ce], nextId := s.nextId + 1 })

/-- `TowerWorkspace.create_compute_environment`: find the SPOT and
on-demand environments by their versioned names; generate and POST any
missing one (the SPOT one is additionally marked primary). -/
def create_compute_environment (cfg : WsConfig) (s : Remote) :
    Except String ((Option Nat × Option Nat) × Remote × List Event) :=
  let spotName := cfg.stackName ++ "-spot-" ++ CE_VERSION
  let ec2Name := cfg.stackName ++ "-ondemand-" ++ CE_VERSION
  let found := find_existing_ces spotName ec2Name s.computeEnvs
  match found.1 with
  | some sid =>
    match found.2 with
    | some eid => .ok ((some sid, some eid), s, [])
    | none =>
      match generate_compute_environment cfg ec2Name "EC2" s with
      | .error e => .error e
      | .ok (spec, s₁, ev₁) =>
        let r := create_ce_remote ec2Name s₁
        .ok ((some sid, some r.1), r.2, ev₁ ++ [Event.ceCreate spec])
  | none =>
    match generate_compute_environment cfg spotName "SPOT" s with
    | .error e => .error e
    | .ok (spec, s₁, ev₁) =>
      let r := create_ce_remote spotName s₁
      match found.2 with
      | some eid =>
        .ok ((some r.1, some eid), r.2, ev₁ ++ [Event.ceCreate spec, Event.cePrimarySet r.1])
      | none =>
        match generate_compute_environment cfg ec2Name "EC2" r.2 with
        | .error e => .error e
        | .ok (spec₂, s₂, ev₂) =>
          let r₂ := create_ce_remote ec2Name s₂
          .ok ((some r.1, some r₂.1), r₂.2,
               ev₁ ++ [Event.ceCreate spec, Event.cePrimarySet r.1] ++ ev₂ ++ [Event.ceCreate spec₂])

end TowerWorkspace

/-- The keep condition of the cleanup loop: the environment name carries
the current version tag and the workspace has a launch-capable
participant. -/
def shouldKeepCE (cfg : WsConfig) (ce : ComputeEnv) : Bool :=
  pyEndsWith ce.name CE_VERSION && TowerWorkspace.has_launchers cfg

/-- The events one snapshot entry contributes during cleanup. -/
def cleanupEvFor (cfg : WsConfig) (ce : ComputeEnv) : List Event :=
  if shouldKeepCE cfg ce then []
  else if ce.activeJobs then [Event.ceDelete ce.id, Event.ceSkipLogged ce.name]
  else [Event.ceDelete ce.id]

/-- The identifiers of the snapshot entries cleanup actually removes. -/
def cleanupDeletedIds (cfg : WsConfig) (snap : List ComputeEnv) : List Nat :=
  (snap.filter (fun ce => !shouldKeepCE cfg ce && !ce.activeJobs)).map (fun ce => ce.id)

/-- Checks that every compute-environment creation request in a trace
carries a credentials identifier that an earlier `credentialsEnsured` event
established (`seen` accumulates the established identifiers). -/
def credBeforeCE (seen : List Nat) : List Event → Bool
  | [] => true
  | Event.ceCreate spec :: rest => seen.contains spec.credentialsId && credBeforeCE seen rest
  | Event.credentialsEnsured i :: rest => credBeforeCE (i :: seen) rest
  | _ :: rest => credBeforeCE seen rest

/-- Well-formedness of the remote participant table: every participant id
is below the fresh-id counter, participant ids are distinct, no member has
two participant entries, and no entry is a team entry (user
reconciliation operates on a member-only table). -/
def WfP (s : Remote) : Prop :=
  (∀ p ∈ s.participants, p.participantId < s.nextId) ∧
  (s.participants.map (fun p => p.participantId)).Nodup ∧
  (s.participants.filterMap (fun p => p.memberId)).Nodup ∧
  (∀ p ∈ s.participants, p.teamId = none)

instance (s : Remote) : Decidable (WfP s) := by
  unfold WfP; infer_instance

/-- The `(member id, role)` pairs the user loop of `populate` resolves,
in processing order (emails without a member entry resolve to nothing,
which `populate` treats as a fatal `KeyError`). -/
def desiredPairs (ms : List Member) : List (String × String) → List (Nat × String)
  | [] => []
  | ur :: rest =>
    match ms.find? (fun m => m.email = ur.1) with
    | some m => (m.memberId, ur.2) :: desiredPairs ms rest
    | none => desiredPairs ms rest

/-- The role the last processed occurrence of a member id carries, i.e.
the role `add_participant`'s unconditional `set_participant_role` leaves
in place. -/
def lastRoleFor (pairs : List (Nat × String)) (mid : Nat) : String :=
  ((pairs.filter (fun x => x.1 = mid)).map Prod.snd).getLastD "launch"

/-- The role of the last bucket containing an email in the fixed
processing order owners, admins, maintainers, launchers, viewers. -/
def lastBucketRole (us : Users) (e : String) : String :=
  if us.viewers.contains e then "view"
  else if us.launchers.contains e then "launch"
  else if us.maintainers.contains e then "maintain"
  else if us.admins.contains e then "admin"
  else if us.owners.contains e then "owner"
  else "launch"

end TowerInfra

namespace TowerInfra

/-! ## Concrete fixtures used by the witnesses -/

def stackFix : StackOutputs :=
  { towerForgeServiceUserAccessKeySecretArn := "arn:aws:secretsmanager:us-east-1:1:secret:forge"
    towerForgeServiceRoleArn := "arn:aws:iam::1:role/forge-service"
    towerForgeBatchWorkJobRoleArn := "arn:aws:iam::1:role/work"
    towerForgeBatchExecutionRoleArn := "arn:aws:iam::1:role/exec"
    towerForgeBatchHeadJobRoleArn := "arn:aws:iam::1:role/head"
    towerScratch := "scratch-bucket" }

def vpcFix : VpcOutputs :=
  { vpcId := "vpc-1", privateSubnet := "subnet-0", privateSubnet1 := "subnet-1",
    privateSubnet2 := "subnet-2", privateSubnet3 := "subnet-3" }

def usersFix : Users :=
  { owners := [], admins := [], maintainers := ["alice@example.org"], launchers := [],
    viewers := ["dana@example.org"] }

def cfgFix : WsConfig :=
  { stackName := "demo-project", stack := stackFix, vpc := vpcFix,
    tags := [("CostCenter", "abc")], users := some usersFix, teams := none }

def remoteFix : Remote :=
  { orgs := [], workspaces := [],
    members := [⟨1, "alice@example.org"⟩, ⟨2, "bob@example.org"⟩,
                ⟨3, "carol@example.org"⟩, ⟨4, "dana@example.org"⟩],
    participants := [⟨10, some 1, none, "view"⟩, ⟨11, some 2, none, "maintain"⟩,
                     ⟨12, some 3, none, "owner"⟩],
    credentials := [], labels := [], computeEnvs := [], nextId := 20 }

def remoteFixCEs : Remote :=
  { remoteFix with computeEnvs :=
      [⟨30, "demo-project-spot-v12", "aws-batch", "AVAILABLE", false⟩,
       ⟨31, "demo-project-spot-v11", "aws-batch", "AVAILABLE", false⟩,
       ⟨32, "demo-project-ondemand-v11", "aws-batch", "AVAILABLE", true⟩] }

def remoteFixCred : Remote :=
  { remoteFix with credentials := [⟨20, "demo-project", "aws", none⟩], nextId := 21 }

/-- The SPOT request body built during the fixture run of
`create_compute_environment` on `cfgFix` from `remoteFix`. -/
def ceSpecSpotFix : CESpec :=
  TowerWorkspace.generate_compute_environment_data stackFix vpcFix
    "demo-project-spot-v12" "SPOT" [21] 20

/-- The EC2 request body built during the fixture run. -/
def ceSpecEc2Fix : CESpec :=
  TowerWorkspace.generate_compute_environment_data stackFix vpcFix
    "demo-project-ondemand-v12" "EC2" [21] 20

/-- The event trace of the fixture run of `create_compute_environment`. -/
def ceTraceFix : List Event :=
  [Event.secretRead "arn:aws:secretsmanager:us-east-1:1:secret:forge",
   Event.credentialsCreate "demo-project", Event.credentialsEnsured 20,
   Event.labelCreate "CostCenter" "abc", Event.ceCreate ceSpecSpotFix,
   Event.cePrimarySet 22, Event.credentialsEnsured 20, Event.ceCreate ceSpecEc2Fix]

/-- The final remote state of the fixture run of `create_compute_environment`. -/
def ceFinalFix : Remote :=
  { remoteFix with
      credentials := [⟨20, "demo-project", "aws", none⟩],
      labels := [⟨21, "CostCenter", "abc"⟩],
      computeEnvs := [⟨22, "demo-project-spot-v12", "aws-batch", "CREATING", false⟩,
                      ⟨23, "demo-project-ondemand-v12", "aws-batch", "CREATING", false⟩],
      nextId := 24 }

/-- The final remote state of the fixture run of `populate` on `cfgFix`. -/
def popFinalFix : Remote :=
  { remoteFix with
      participants := [⟨10, some 1, none, "maintain"⟩, ⟨12, some 3, none, "owner"⟩,
                       ⟨20, some 4, none, "view"⟩],
      nextId := 21 }

/-- The event trace of the fixture run of `populate` on `cfgFix`. -/
def popTraceFix : List Event :=
  [Event.participantRoleSet 10 "maintain", Event.participantAdd 4,
   Event.participantRoleSet 20 "view", Event.participantRemove 11]

/-- A user set listing the same email as both a maintainer and a viewer. -/
def usersDupFix : Users :=
  { owners := [], admins := [], maintainers := ["dana@example.org"], launchers := [],
    viewers := ["dana@example.org"] }

/-- `cfgFix` with the duplicated user set. -/
def cfgDupFix : WsConfig :=
  { stackName := "demo-project", stack := stackFix, vpc := vpcFix,
    tags := [("CostCenter", "abc")], users := some usersDupFix, teams := none }

/-- The final remote state of the fixture run of `populate` on `cfgDupFix`. -/
def popDupFinalFix : Remote :=
  { remoteFix with
      participants := [⟨12, some 3, none, "owner"⟩, ⟨20, some 4, none, "view"⟩],
      nextId := 21 }

/-- The event trace of the fixture run of `populate` on `cfgDupFix`. -/
def popDupTraceFix : List Event :=
  [Event.participantAdd 4, Event.participantRoleSet 20 "maintain",
   Event.participantRoleSet 20 "view", Event.participantRemove 10,
   Event.participantRemove 11]

/-! ## Generic list helpers -/

theorem takeWhile_append_cons {α : Type} (p : α → Bool) :
    ∀ (l₁ : List α) (x : α) (l₂ : List α),
      (∀ a ∈ l₁, p a = true) → p x = false →
      (l₁ ++ x :: l₂).takeWhile p = l₁ ∧ (l₁ ++ x :: l₂).dropWhile p = x :: l₂
  | [], x, l₂, _, hx => by
    simp [List.takeWhile_cons, List.dropWhile_cons, hx]
  | a :: l₁, x, l₂, h, hx => by
    have ha := h a (by simp)
    have ih := takeWhile_append_cons p l₁ x l₂ (fun b hb => h b (by simp [hb])) hx
    simp [List.takeWhile_cons, List.dropWhile_cons, ha, ih.1, ih.2]

/-! ## C3: tag derivation -/

theorem squashInvalid_all_valid : ∀ (b : Bool) (cs : List Char),
    (squashInvalid b cs).all isTagChar = true
  | _, [] => rfl
  | b, c :: rest => by
    by_cases hc : isTagChar c = true
    · simp [squashInvalid, hc, squashInvalid_all_valid false rest]
    · have hc' : isTagChar c = false := by simpa using hc
      cases b with
      | true => simp [squashInvalid, hc', squashInvalid_all_valid true rest]
      | false =>
        have h_ : isTagChar '_' = true := by decide
        simp [squashInvalid, hc', h_, squashInvalid_all_valid true rest]

theorem squashInvalid_fixed : ∀ (cs : List Char),
    cs.all isTagChar = true → squashInvalid false cs = cs
  | [], _ => rfl
  | c :: rest, h => by
    rw [List.all_cons, Bool.and_eq_true] at h
    simp [squashInvalid, h.1, squashInvalid_fixed rest h.2]

theorem sanitizeTag_data (s : String) : (sanitizeTag s).data = squashInvalid false s.data := rfl

theorem sanitizeTag_fixed (s : String) (h : s.data.all isTagChar = true) :
    sanitizeTag s = s := by
  have : (sanitizeTag s).data = s.data := by rw [sanitizeTag_data, squashInvalid_fixed s.data h]
  cases s with
  | mk d => exact congrArg String.mk this

theorem sanitizeTag_all (s : String) : (sanitizeTag s).data.all isTagChar = true := by
  rw [sanitizeTag_data]; exact squashInvalid_all_valid false s.data

theorem sanitizeTag_idem (s : String) : sanitizeTag (sanitizeTag s) = sanitizeTag s :=
  sanitizeTag_fixed _ (sanitizeTag_all s)

theorem dinsert_of_not_mem (k v : String) :
    ∀ d : List (String × String), k ∉ d.map Prod.fst → dinsert k v d = d ++ [(k, v)]
  | [], _ => rfl
  | (k', v') :: rest, h => by
    have hk : k' ≠ k := by
      intro hkk; exact h (by simp [hkk])
    simp only [dinsert, hk, if_false]
    rw [dinsert_of_not_mem k v rest (fun hm => h (by simp [hm]))]
    simp

theorem sanitizeLoop_spec :
    ∀ (d E : List (String × String)),
      (d.map (fun kv => sanitizeTag kv.1)).Nodup →
      (∀ kv ∈ d, ∀ k' ∈ E.map Prod.fst, sanitizeTag kv.1 ≠ k') →
      sanitizeLoop (d.map Prod.fst) (d ++ E) =
        .ok (E ++ d.map (fun kv => (sanitizeTag kv.1, sanitizeTag kv.2)))
  | [], E, _, _ => by simp [sanitizeLoop]
  | (k, v) :: d', E, hnd, hdisj => by
    have hlk : dlookup k ((k, v) :: (d' ++ E)) = some v := by simp [dlookup]
    have hrm : dremove k ((k, v) :: (d' ++ E)) = d' ++ E := by simp [dremove]
    have hnd' : (d'.map (fun kv => sanitizeTag kv.1)).Nodup := (List.nodup_cons.mp hnd).2
    have hhd : sanitizeTag k ∉ d'.map (fun kv => sanitizeTag kv.1) :=
      (List.nodup_cons.mp hnd).1
    have hins : sanitizeTag k ∉ (d' ++ E).map Prod.fst := by
      rw [List.map_append, List.mem_append]
      rintro (hmem | hmem)
      · obtain ⟨kv', hkv', hfst⟩ := List.mem_map.mp hmem
        apply hhd
        have : sanitizeTag kv'.1 = sanitizeTag k := by
          rw [hfst, sanitizeTag_idem]
        exact List.mem_map.mpr ⟨kv', hkv', this⟩
      · exact hdisj (k, v) (by simp) _ hmem rfl
    have hins' : dinsert (sanitizeTag k) (sanitizeTag v) (d' ++ E) =
        (d' ++ E) ++ [(sanitizeTag k, sanitizeTag v)] :=
      dinsert_of_not_mem _ _ _ hins
    have hdisj' : ∀ kv ∈ d', ∀ k' ∈ (E ++ [(sanitizeTag k, sanitizeTag v)]).map Prod.fst,
        sanitizeTag kv.1 ≠ k' := by
      intro kv hkv k' hk'
      rw [List.map_append, List.mem_append] at hk'
      rcases hk' with hk' | hk'
      · exact hdisj kv (by simp [hkv]) _ hk'
      · simp only [List.map_cons, List.map_nil, List.mem_singleton] at hk'
        subst hk'
        intro hbad
        exact hhd (List.mem_map.mpr ⟨kv, hkv, hbad⟩)
    have ih := sanitizeLoop_spec d' (E ++ [(sanitizeTag k, sanitizeTag v)]) hnd' hdisj'
    simp only [List.map_cons, List.cons_append, sanitizeLoop, hlk, hrm, hins']
    rw [List.append_assoc] at ih ⊢
    rw [ih]
    simp

/-- C3 (amended): under the adjusted dictionary having collision-free
sanitized keys, the pop/reinsert loop of `extract_tags` computes exactly
the map of `sanitizeTag` over the descriptor tags augmented with the
`TowerProject` tag and cost-center adjustment. -/
theorem extract_tags_eq_map (stackName : String) (tags : List (String × String))
    (h : ((costCenterAdjust (towerProjectTag stackName tags)).map
        (fun kv => sanitizeTag kv.1)).Nodup) :
    extract_tags stackName tags =
      .ok ((costCenterAdjust (towerProjectTag stackName tags)).map
        (fun kv => (sanitizeTag kv.1, sanitizeTag kv.2))) := by
  have := sanitizeLoop_spec (costCenterAdjust (towerProjectTag stackName tags)) [] h
    (by intro kv _ k' hk'; simp at hk')
  rw [extract_tags]
  simpa using this

end TowerInfra

namespace TowerInfra

/-- C3 counterexample: on the descriptor tag `Cost Center = "x^ y"` for
stack `foo-project`, the code produces key `TowerProject` (not `Project`)
and keeps the caret (the regex class is `[^A-z0-9_-]+`, and `^` lies in the
`A-z` range), while the claim's per-character `[A-Za-z0-9_-]` sanitization
with a `Project` tag produces a different map. -/
theorem extract_tags_counterexample :
    extract_tags "foo-project" [("Cost Center", "x^ y")] =
      .ok [("Cost_Center", "x^_y"), ("TowerProject", "foo-project")] ∧
    extract_tags_claimed "foo-project" [("Cost Center", "x^ y")] =
      [("Cost_Center", "x__y"), ("Project", "foo-project")] ∧
    ([("Cost_Center", "x^_y"), ("TowerProject", "foo-project")] :
        List (String × String)) ≠
      [("Cost_Center", "x__y"), ("Project", "foo-project")] := by
  refine ⟨by rfl, by rfl, by decide⟩

/-- Witness for the amended C3 theorem at a concrete project descriptor. -/
theorem extract_tags_eq_map_witness :
    ((costCenterAdjust (towerProjectTag "science-project"
        [("CostCenter", "NGS / Dept-12"), ("Department", "IBC demo")])).map
      (fun kv => sanitizeTag kv.1)).Nodup ∧
    extract_tags "science-project" [("CostCenter", "NGS / Dept-12"), ("Department", "IBC demo")] =
      .ok ((costCenterAdjust (towerProjectTag "science-project"
            [("CostCenter", "NGS / Dept-12"), ("Department", "IBC demo")])).map
        (fun kv => (sanitizeTag kv.1, sanitizeTag kv.2))) :=
  ⟨by decide, extract_tags_eq_map "science-project"
      [("CostCenter", "NGS / Dept-12"), ("Department", "IBC demo")] (by decide)⟩

/-! ## C4: identity extraction -/

theorem isLocalChar_props {c : Char} (h : isLocalChar c = true) :
    c ≠ '@' ∧ c ≠ '/' ∧ c ≠ '\n' := by
  refine ⟨?_, ?_, ?_⟩ <;> rintro rfl <;> exact absurd h (by decide)

theorem isDomainChar_props {c : Char} (h : isDomainChar c = true) :
    c ≠ '@' ∧ c ≠ '/' ∧ c ≠ '\n' := by
  refine ⟨?_, ?_, ?_⟩ <;> rintro rfl <;> exact absurd h (by decide)

theorem isAlpha_props {c : Char} (h : c.isAlpha = true) :
    c ≠ '@' ∧ c ≠ '/' ∧ c ≠ '\n' ∧ c ≠ '.' := by
  refine ⟨?_, ?_, ?_, ?_⟩ <;> rintro rfl <;> exact absurd h (by decide)

theorem isDigit_props {c : Char} (h : c.isDigit = true) :
    c ≠ '/' ∧ c ≠ '\n' := by
  refine ⟨?_, ?_⟩ <;> rintro rfl <;> exact absurd h (by decide)

theorem isTldChar_of_isAlpha {c : Char} (h : c.isAlpha = true) : isTldChar c = true := by
  simp [isTldChar, h]

theorem matchEmail_parts (L D T : List Char)
    (hL : L ≠ []) (hLc : ∀ c ∈ L, isLocalChar c = true)
    (hD : D ≠ []) (hDc : ∀ c ∈ D, isDomainChar c = true)
    (hT : 2 ≤ T.length) (hTc : ∀ c ∈ T, Char.isAlpha c = true) :
    matchEmail (L ++ '@' :: (D ++ '.' :: T)) = true := by
  have h₁ := takeWhile_append_cons (fun c => decide (c ≠ '@')) L '@' (D ++ '.' :: T)
    (fun a ha => by simp [(isLocalChar_props (hLc a ha)).1]) (by simp)
  have hrev : (D ++ '.' :: T).reverse = T.reverse ++ '.' :: D.reverse := by
    simp [List.reverse_append]
  have h₂ := takeWhile_append_cons (fun c => decide (c ≠ '.')) T.reverse '.' D.reverse
    (fun a ha => by
      have := (isAlpha_props (hTc a (List.mem_reverse.mp ha))).2.2.2
      simp [this]) (by simp)
  have hne : L.isEmpty = false := by
    cases L with
    | nil => exact absurd rfl hL
    | cons a l => rfl
  have hdne : D.reverse.isEmpty = false := by
    cases D with
    | nil => exact absurd rfl hD
    | cons a l => simp [List.isEmpty_iff]
  have c₁ : L.all isLocalChar = true := List.all_eq_true.mpr hLc
  have c₂ : D.reverse.all isDomainChar = true := by
    rw [List.all_reverse]; exact List.all_eq_true.mpr hDc
  have c₃ : decide (2 ≤ T.reverse.length) = true := by
    rw [List.length_reverse]; exact decide_eq_true hT
  have c₄ : T.reverse.all isTldChar = true := by
    rw [List.all_reverse]
    exact List.all_eq_true.mpr (fun c hc => isTldChar_of_isAlpha (hTc c hc))
  rw [matchEmail]
  simp only [h₁.1, h₁.2, hrev, h₂.1, h₂.2]
  simp [hne, hdne, c₁, c₂, c₃, c₄]
  exact hT

theorem sessionOfCore_append (P S : List Char)
    (hP : ∀ c ∈ P, c ≠ '\n') (hS : ∀ c ∈ S, c ≠ '/') (hm : matchEmail S = true) :
    sessionOfCore (P ++ '/' :: S) = some S := by
  have hrev : (P ++ '/' :: S).reverse = S.reverse ++ '/' :: P.reverse := by
    simp [List.reverse_append]
  have h₁ := takeWhile_append_cons (fun c => decide (c ≠ '/')) S.reverse '/' P.reverse
    (fun a ha => by simp [hS a (List.mem_reverse.mp ha)]) (by simp)
  have hcont : (P ++ '/' :: S).contains '/' = true := by
    have : '/' ∈ P ++ '/' :: S := by simp
    exact List.elem_iff.mpr this
  have hpre : (('/' :: P.reverse).reverse).dropLast = P := by
    simp
  have hall : P.all (fun c => decide (c ≠ '\n')) = true :=
    List.all_eq_true.mpr (fun c hc => by simp [hP c hc])
  rw [sessionOfCore]
  simp only [hcont, if_true, hrev, h₁.1, h₁.2, List.reverse_reverse, hpre, hall, hm]
  simp

theorem sessionOfCore_sound {cs l : List Char} (h : sessionOfCore cs = some l) :
    matchEmail l = true := by
  rw [sessionOfCore] at h
  by_cases hc : cs.contains '/' = true
  · rw [hc, if_pos rfl] at h
    set sess := (cs.reverse.takeWhile (fun c => decide (c ≠ '/'))).reverse with hsess
    by_cases hcond : (((cs.reverse.dropWhile (fun c => decide (c ≠ '/'))).reverse).dropLast.all
        (fun c => decide (c ≠ '\n')) && matchEmail sess) = true
    · rw [if_pos hcond] at h
      obtain rfl : sess = l := by injection h
      have hcond' : (((cs.reverse.dropWhile (fun c => decide (c ≠ '/'))).reverse).dropLast.all
          (fun c => decide (c ≠ '\n')) = true) ∧ matchEmail sess = true := by
        simpa using hcond
      exact hcond'.2
    · rw [if_neg hcond] at h
      exact absurd h (by simp)
  · rw [Bool.not_eq_true] at hc
    rw [hc] at h
    simp at h

end TowerInfra

namespace TowerInfra

theorem mkEmail_data (lp dom tld : String) :
    (mkEmail lp dom tld).data = lp.data ++ '@' :: (dom.data ++ '.' :: tld.data) := by
  simp [mkEmail, String.data_append]

theorem wfEmailParts_elim {lp dom tld : String} (he : wfEmailParts lp dom tld = true) :
    lp.data ≠ [] ∧ (∀ c ∈ lp.data, isLocalChar c = true) ∧
    dom.data ≠ [] ∧ (∀ c ∈ dom.data, isDomainChar c = true) ∧
    2 ≤ tld.data.length ∧ (∀ c ∈ tld.data, Char.isAlpha c = true) := by
  rw [wfEmailParts] at he
  simp only [Bool.and_eq_true, Bool.not_eq_true', List.isEmpty_eq_false_iff_exists_mem,
    List.all_eq_true, decide_eq_true_eq] at he
  obtain ⟨⟨⟨⟨⟨h1, h2⟩, h3⟩, h4⟩, h5⟩, h6⟩ := he
  refine ⟨?_, h2, ?_, h4, h5, h6⟩
  · intro hnil; obtain ⟨x, hx⟩ := h1; rw [hnil] at hx; simp at hx
  · intro hnil; obtain ⟨x, hx⟩ := h3; rw [hnil] at hx; simp at hx

theorem wfArnParts_elim {acct rolePart : String} (hw : wfArnParts acct rolePart = true) :
    acct.data ≠ [] ∧ (∀ c ∈ acct.data, Char.isDigit c = true) ∧
    rolePart.data ≠ [] ∧ (∀ c ∈ rolePart.data, c ≠ '/' ∧ c ≠ '\n') := by
  rw [wfArnParts] at hw
  simp only [Bool.and_eq_true, Bool.not_eq_true', List.isEmpty_eq_false_iff_exists_mem,
    List.all_eq_true, decide_eq_true_eq] at hw
  obtain ⟨⟨⟨h1, h2⟩, h3⟩, h4⟩ := hw
  refine ⟨?_, h2, ?_, h4⟩
  · intro hnil; obtain ⟨x, hx⟩ := h1; rw [hnil] at hx; simp at hx
  · intro hnil; obtain ⟨x, hx⟩ := h3; rw [hnil] at hx; simp at hx

theorem matchEmail_mkEmail {lp dom tld : String} (he : wfEmailParts lp dom tld = true) :
    matchEmail (mkEmail lp dom tld).data = true := by
  obtain ⟨h1, h2, h3, h4, h5, h6⟩ := wfEmailParts_elim he
  rw [mkEmail_data]
  exact matchEmail_parts _ _ _ h1 h2 h3 h4 h5 h6

theorem mkEmail_no_slash {lp dom tld : String} (he : wfEmailParts lp dom tld = true) :
    ∀ c ∈ (mkEmail lp dom tld).data, c ≠ '/' := by
  obtain ⟨_, h2, _, h4, _, h6⟩ := wfEmailParts_elim he
  rw [mkEmail_data]
  intro c hc
  rcases List.mem_append.mp hc with hc | hc
  · exact (isLocalChar_props (h2 c hc)).2.1
  · rcases List.mem_cons.mp hc with rfl | hc
    · decide
    · rcases List.mem_append.mp hc with hc | hc
      · exact (isDomainChar_props (h4 c hc)).2.1
      · rcases List.mem_cons.mp hc with rfl | hc
        · decide
        · exact (isAlpha_props (h6 c hc)).2.1

theorem sessionOf_mkArn {acct rolePart lp dom tld : String}
    (hw : wfArnParts acct rolePart = true) (he : wfEmailParts lp dom tld = true) :
    sessionOf (mkArn acct rolePart (mkEmail lp dom tld)) = some (mkEmail lp dom tld) := by
  obtain ⟨_, hacct, _, hrole⟩ := wfArnParts_elim hw
  have hdata : (mkArn acct rolePart (mkEmail lp dom tld)).data =
      ("arn:aws:sts::".data ++ acct.data ++ ":assumed-role/".data ++ rolePart.data) ++
        '/' :: (mkEmail lp dom tld).data := by
    simp [mkArn, String.data_append]
  have hP : ∀ c ∈ "arn:aws:sts::".data ++ acct.data ++ ":assumed-role/".data ++ rolePart.data,
      c ≠ '\n' := by
    have hlit₁ : ∀ c ∈ "arn:aws:sts::".data, c ≠ '\n' := by decide
    have hlit₂ : ∀ c ∈ ":assumed-role/".data, c ≠ '\n' := by decide
    intro c hc
    rcases List.mem_append.mp hc with hc | hc
    · rcases List.mem_append.mp hc with hc | hc
      · rcases List.mem_append.mp hc with hc | hc
        · exact hlit₁ c hc
        · exact (isDigit_props (hacct c hc)).2
      · exact hlit₂ c hc
    · exact (hrole c hc).2
  rw [sessionOf, hdata, sessionOfCore_append _ _ hP (mkEmail_no_slash he) (matchEmail_mkEmail he)]
  rfl

theorem sessionOf_sound {arn e : String} (h : sessionOf arn = some e) :
    matchEmail e.data = true := by
  rw [sessionOf] at h
  cases hs : sessionOfCore arn.data with
  | none => rw [hs] at h; simp at h
  | some l =>
    rw [hs] at h
    have he : (⟨l⟩ : String) = e := by simpa using h
    subst he
    exact sessionOfCore_sound hs

end TowerInfra

namespace TowerInfra

theorem strictSessionOf_mkArn {acct rolePart lp dom tld : String}
    (hw : wfArnParts acct rolePart = true) (he : wfEmailParts lp dom tld = true) :
    strictSessionOf (mkArn acct rolePart (mkEmail lp dom tld)) = some (mkEmail lp dom tld) := by
  obtain ⟨hane, hacct, hrne, hrole⟩ := wfArnParts_elim hw
  have hdata : (mkArn acct rolePart (mkEmail lp dom tld)).data =
      "arn:aws:sts::".data ++ (acct.data ++ (":assumed-role/".data ++
        (rolePart.data ++ '/' :: (mkEmail lp dom tld).data))) := by
    simp [mkArn, String.data_append]
  have hp2cons : ":assumed-role/".data = ':' :: "assumed-role/".data := by decide
  have hpre₁ : ("arn:aws:sts::".data).isPrefixOf
      ("arn:aws:sts::".data ++ (acct.data ++ (":assumed-role/".data ++
        (rolePart.data ++ '/' :: (mkEmail lp dom tld).data)))) = true :=
    List.isPrefixOf_iff_prefix.mpr (List.prefix_append _ _)
  have hdrop₁ : ("arn:aws:sts::".data ++ (acct.data ++ (":assumed-role/".data ++
        (rolePart.data ++ '/' :: (mkEmail lp dom tld).data)))).drop
        ("arn:aws:sts::".data).length =
      acct.data ++ (":assumed-role/".data ++
        (rolePart.data ++ '/' :: (mkEmail lp dom tld).data)) :=
    List.drop_left _ _
  have hshape : acct.data ++ (":assumed-role/".data ++
        (rolePart.data ++ '/' :: (mkEmail lp dom tld).data)) =
      acct.data ++ ':' :: ("assumed-role/".data ++
        (rolePart.data ++ '/' :: (mkEmail lp dom tld).data)) := by
    rw [hp2cons]; simp
  have htw₁ := takeWhile_append_cons Char.isDigit acct.data ':'
    ("assumed-role/".data ++ (rolePart.data ++ '/' :: (mkEmail lp dom tld).data))
    hacct (by decide)
  have haccne : acct.data.isEmpty = false := by
    cases hc : acct.data with
    | nil => exact absurd hc hane
    | cons a l => rfl
  have hshape₂ : ':' :: ("assumed-role/".data ++
        (rolePart.data ++ '/' :: (mkEmail lp dom tld).data)) =
      ":assumed-role/".data ++ (rolePart.data ++ '/' :: (mkEmail lp dom tld).data) := by
    rw [hp2cons]; simp
  have hpre₂ : (":assumed-role/".data).isPrefixOf
      (":assumed-role/".data ++ (rolePart.data ++ '/' :: (mkEmail lp dom tld).data)) = true :=
    List.isPrefixOf_iff_prefix.mpr (List.prefix_append _ _)
  have hdrop₂ : (":assumed-role/".data ++
        (rolePart.data ++ '/' :: (mkEmail lp dom tld).data)).drop
        (":assumed-role/".data).length =
      rolePart.data ++ '/' :: (mkEmail lp dom tld).data :=
    List.drop_left _ _
  have htw₂ := takeWhile_append_cons (fun c => decide (c ≠ '/')) rolePart.data '/'
    ((mkEmail lp dom tld).data)
    (fun a ha => by simp [(hrole a ha).1]) (by simp)
  have hrolene : rolePart.data.isEmpty = false := by
    cases hc : rolePart.data with
    | nil => exact absurd hc hrne
    | cons a l => rfl
  rw [strictSessionOf]
  simp only [hdata, hpre₁, if_true, hdrop₁]
  rw [hshape]
  simp only [htw₁.1, htw₁.2, haccne]
  rw [hshape₂]
  simp only [hpre₂, hdrop₂, htw₂.1, htw₂.2, Bool.not_false, Bool.true_and, Bool.and_true,
    if_true, hrolene, matchEmail_mkEmail he]

theorem strictSessionOf_sound {arn e : String} (h : strictSessionOf arn = some e) :
    matchEmail e.data = true := by
  rw [strictSessionOf] at h
  split at h
  · dsimp only at h
    split at h
    · split at h
      · exact absurd h (by simp)
      · rename_i sess heq
        split at h
        · rename_i hcond
          have hm : matchEmail sess = true := by
            simp only [Bool.and_eq_true] at hcond
            exact hcond.2
          have he' : (⟨sess⟩ : String) = e := by simpa using h
          subst he'
          exact hm
        · exact absurd h (by simp)
    · exact absurd h (by simp)
  · exact absurd h (by simp)

theorem extract_step_mono {acc : List String} {arn e : String} (h : e ∈ acc) :
    e ∈ extract_emails_step acc arn := by
  rw [extract_emails_step]
  cases sessionOf arn with
  | none => exact h
  | some x =>
    dsimp only
    split
    · exact h
    · exact List.mem_append.mpr (.inl h)

theorem extract_foldl_mono : ∀ (arns : List String) (acc : List String) (e : String),
    e ∈ acc → e ∈ arns.foldl extract_emails_step acc
  | [], _, _, h => h
  | _ :: l, _, e, h => extract_foldl_mono l _ e (extract_step_mono h)

theorem extract_foldl_complete : ∀ (arns : List String) (acc : List String) (arn e : String),
    arn ∈ arns → sessionOf arn = some e → e ∈ arns.foldl extract_emails_step acc
  | a :: l, acc, arn, e, hmem, hs => by
    rcases List.mem_cons.mp hmem with rfl | hmem'
    · rw [List.foldl_cons]
      apply extract_foldl_mono
      rw [extract_emails_step, hs]
      dsimp only
      split
      · assumption
      · exact List.mem_append.mpr (.inr (by simp))
    · exact extract_foldl_complete l _ arn e hmem' hs

theorem extract_foldl_sound : ∀ (arns : List String) (acc : List String) (x : String),
    x ∈ arns.foldl extract_emails_step acc →
    x ∈ acc ∨ ∃ arn ∈ arns, sessionOf arn = some x
  | [], _, _, h => .inl h
  | a :: l, acc, x, h => by
    rcases extract_foldl_sound l (extract_emails_step acc a) x h with h' | ⟨arn, hmem, hs⟩
    · rw [extract_emails_step] at h'
      cases hsa : sessionOf a with
      | none => rw [hsa] at h'; exact .inl h'
      | some y =>
        rw [hsa] at h'
        dsimp only at h'
        by_cases hy : y ∈ acc
        · rw [if_pos hy] at h'; exact .inl h'
        · rw [if_neg hy] at h'
          rcases List.mem_append.mp h' with h'' | h''
          · exact .inl h''
          · obtain rfl : x = y := by simpa using h''
            exact .inr ⟨a, by simp, hsa⟩
    · exact .inr ⟨arn, by simp [hmem], hs⟩

theorem strict_foldl_mono : ∀ (arns : List String) (acc : List String) (e : String),
    e ∈ acc → e ∈ arns.foldl extract_strict_step acc
  | [], _, _, h => h
  | a :: l, acc, e, h => by
    apply strict_foldl_mono l _ e
    rw [extract_strict_step]
    cases strictSessionOf a with
    | none => exact h
    | some x => exact List.mem_append.mpr (.inl h)

theorem strict_foldl_complete : ∀ (arns : List String) (acc : List String) (arn e : String),
    arn ∈ arns → strictSessionOf arn = some e → e ∈ arns.foldl extract_strict_step acc
  | a :: l, acc, arn, e, hmem, hs => by
    rcases List.mem_cons.mp hmem with rfl | hmem'
    · rw [List.foldl_cons]
      apply strict_foldl_mono
      rw [extract_strict_step, hs]
      exact List.mem_append.mpr (.inr (by simp))
    · exact strict_foldl_complete l _ arn e hmem' hs

theorem strict_foldl_sound : ∀ (arns : List String) (acc : List String) (x : String),
    x ∈ arns.foldl extract_strict_step acc →
    x ∈ acc ∨ ∃ arn ∈ arns, strictSessionOf arn = some x
  | [], _, _, h => .inl h
  | a :: l, acc, x, h => by
    rcases strict_foldl_sound l (extract_strict_step acc a) x h with h' | ⟨arn, hmem, hs⟩
    · rw [extract_strict_step] at h'
      cases hsa : strictSessionOf a with
      | none => rw [hsa] at h'; exact .inl h'
      | some y =>
        rw [hsa] at h'
        rcases List.mem_append.mp h' with h'' | h''
        · exact .inl h''
        · obtain rfl : x = y := by simpa using h''
          exact .inr ⟨a, by simp, hsa⟩
    · exact .inr ⟨arn, by simp [hmem], hs⟩

/-- C4: for every ARN of the specified shape
`arn:aws:sts::<acct>:assumed-role/<role>/<local>@<domain>.<tld>` among the
inputs, both extractors include exactly `<local>@<domain>.<tld>` in their
output; and every produced identity is the captured session name of some
input ARN that fully matched the email-shaped regex — ARNs lacking an
email-shaped trailing session name contribute nothing. -/
theorem extract_identity_spec (arns : List String) (acct rolePart lp dom tld : String)
    (hw : wfArnParts acct rolePart = true) (he : wfEmailParts lp dom tld = true) :
    (mkArn acct rolePart (mkEmail lp dom tld) ∈ arns →
      mkEmail lp dom tld ∈ extract_emails arns ∧
      mkEmail lp dom tld ∈ extract_emails_from_arns arns) ∧
    (∀ e ∈ extract_emails arns,
      ∃ arn ∈ arns, sessionOf arn = some e ∧ matchEmail e.data = true) ∧
    (∀ e ∈ extract_emails_from_arns arns,
      ∃ arn ∈ arns, strictSessionOf arn = some e ∧ matchEmail e.data = true) := by
  refine ⟨fun hmem => ⟨?_, ?_⟩, fun e hmem => ?_, fun e hmem => ?_⟩
  · exact extract_foldl_complete arns [] _ _ hmem (sessionOf_mkArn hw he)
  · exact strict_foldl_complete arns [] _ _ hmem (strictSessionOf_mkArn hw he)
  · rcases extract_foldl_sound arns [] e hmem with h | ⟨arn, hmem', hs⟩
    · simp at h
    · exact ⟨arn, hmem', hs, sessionOf_sound hs⟩
  · rcases strict_foldl_sound arns [] e hmem with h | ⟨arn, hmem', hs⟩
    · simp at h
    · exact ⟨arn, hmem', hs, strictSessionOf_sound hs⟩

/-- Witness for C4 at one of the repository's own test ARNs. -/
theorem extract_identity_spec_witness :
    wfArnParts "563295687221" "AWSReservedSSO_Viewer_19d3ce703c9acf2e" = true ∧
    wfEmailParts "bruno.grande" "sagebase" "org" = true ∧
    mkEmail "bruno.grande" "sagebase" "org" ∈
      extract_emails [mkArn "563295687221" "AWSReservedSSO_Viewer_19d3ce703c9acf2e"
        (mkEmail "bruno.grande" "sagebase" "org")] ∧
    mkEmail "bruno.grande" "sagebase" "org" ∈
      extract_emails_from_arns [mkArn "563295687221" "AWSReservedSSO_Viewer_19d3ce703c9acf2e"
        (mkEmail "bruno.grande" "sagebase" "org")] :=
  ⟨by decide, by decide,
   ((extract_identity_spec
      [mkArn "563295687221" "AWSReservedSSO_Viewer_19d3ce703c9acf2e"
        (mkEmail "bruno.grande" "sagebase" "org")]
      "563295687221" "AWSReservedSSO_Viewer_19d3ce703c9acf2e"
      "bruno.grande" "sagebase" "org" (by decide) (by decide)).1 (by simp)).1,
   ((extract_identity_spec
      [mkArn "563295687221" "AWSReservedSSO_Viewer_19d3ce703c9acf2e"
        (mkEmail "bruno.grande" "sagebase" "org")]
      "563295687221" "AWSReservedSSO_Viewer_19d3ce703c9acf2e"
      "bruno.grande" "sagebase" "org" (by decide) (by decide)).1 (by simp)).2⟩

end TowerInfra

namespace TowerInfra

/-! ## C1: idempotence of the ensure operations -/

/-- C1: each get-or-create operation, called a second time with identical
arguments on the remote state produced by the first call, returns the same
identifier, leaves the state unchanged, and issues no creation request
(for `create_credentials` the second trace is only the returned-identifier
marker, with no secret read and no POST). -/
theorem ensure_idempotent (s : Remote) (fullName orgName wsName wsFull email lname lvalue : String)
    (cfg : WsConfig) :
    (∀ i t ev, TowerOrganization.create fullName orgName s = (i, t, ev) →
       TowerOrganization.create fullName orgName t = (i, t, [])) ∧
    (∀ i t ev, TowerWorkspace.create wsName wsFull s = (i, t, ev) →
       TowerWorkspace.create wsName wsFull t = (i, t, [])) ∧
    ((s.members.filter (fun m => m.email = email)).length ≤ 1 →
      ∀ m t ev, TowerOrganization.add_member email s = (m, t, ev) →
        TowerOrganization.add_member email t = (m, t, [])) ∧
    (∀ cid t ev, TowerWorkspace.create_credentials cfg s = .ok (cid, t, ev) →
       TowerWorkspace.create_credentials cfg t = .ok (cid, t, [Event.credentialsEnsured cid])) ∧
    (((s.labels.filter (fun l => l.name = lname)).filter (fun l => l.value = lvalue)).length ≤ 1 →
      ∀ lid t ev, TowerWorkspace.create_resource_label lname lvalue s = (lid, t, ev) →
        TowerWorkspace.create_resource_label lname lvalue t = (lid, t, [])) := by
  refine ⟨?_, ?_, ?_, ?_, ?_⟩
  · intro i t ev h
    cases hf : s.orgs.find? (fun o => o.fullName = fullName) with
    | some o =>
      simp only [TowerOrganization.create, hf] at h
      obtain ⟨rfl, rfl, rfl⟩ := by simpa using h
      simp [TowerOrganization.create, hf]
    | none =>
      simp only [TowerOrganization.create, hf] at h
      obtain ⟨rfl, rfl, rfl⟩ := by simpa using h
      simp [TowerOrganization.create, List.find?_append, hf, List.find?]
  · intro i t ev h
    cases hf : s.workspaces.find? (fun w => w.name = wsName) with
    | some w =>
      simp only [TowerWorkspace.create, hf] at h
      obtain ⟨rfl, rfl, rfl⟩ := by simpa using h
      simp [TowerWorkspace.create, hf]
    | none =>
      simp only [TowerWorkspace.create, hf] at h
      obtain ⟨rfl, rfl, rfl⟩ := by simpa using h
      simp [TowerWorkspace.create, List.find?_append, hf, List.find?]
  · intro hle m t ev h
    rcases hf : s.members.filter (fun mm => mm.email = email) with _ | ⟨m₁, rest⟩
    · simp only [TowerOrganization.add_member, hf] at h
      simp at h
      obtain ⟨rfl, rfl, rfl⟩ := h
      have hf₂ : (s.members ++ [(⟨s.nextId, email⟩ : Member)]).filter
          (fun mm => mm.email = email) = [⟨s.nextId, email⟩] := by
        rw [List.filter_append, hf]
        simp
      simp [TowerOrganization.add_member, hf₂]
    · rcases rest with _ | ⟨m₂, rest₂⟩
      · have hm₁ : m₁.email = email := by
          have hmem : m₁ ∈ s.members.filter (fun mm => mm.email = email) := by
            rw [hf]; simp
          simpa using (List.mem_filter.mp hmem).2
        simp only [TowerOrganization.add_member, hf] at h
        simp [hm₁] at h
        obtain ⟨rfl, rfl, rfl⟩ := h
        simp [TowerOrganization.add_member, hf, hm₁]
      · rw [hf] at hle
        simp [List.length_cons] at hle
  · intro cid t ev h
    cases hf : s.credentials.find? (fun c => c.name = cfg.stackName) with
    | some c =>
      simp only [TowerWorkspace.create_credentials, hf] at h
      split at h
      · split at h
        · obtain ⟨rfl, rfl, rfl⟩ := by simpa using h
          rename_i hp hd
          simp [TowerWorkspace.create_credentials, hf, hp, hd]
        · exact absurd h (by simp)
      · exact absurd h (by simp)
    | none =>
      simp only [TowerWorkspace.create_credentials, hf] at h
      obtain ⟨rfl, rfl, rfl⟩ := by simpa using h
      simp [TowerWorkspace.create_credentials, List.find?_append, hf, List.find?]
  · intro hle lid t ev h
    rcases hf : (s.labels.filter (fun l => l.name = lname)).filter (fun l => l.value = lvalue)
      with _ | ⟨l₁, rest⟩
    · simp only [TowerWorkspace.create_resource_label, TowerWorkspace.get_resource_label, hf] at h
      simp at h
      obtain ⟨rfl, rfl, rfl⟩ := h
      have hf₂ : ((s.labels ++ [(⟨s.nextId, lname, lvalue⟩ : ResourceLabel)]).filter
          (fun l => l.name = lname)).filter (fun l => l.value = lvalue) =
          [⟨s.nextId, lname, lvalue⟩] := by
        rw [List.filter_append, List.filter_append, hf]
        simp
      have hg₂ : TowerWorkspace.get_resource_label lname lvalue
          { s with labels := s.labels ++ [(⟨s.nextId, lname, lvalue⟩ : ResourceLabel)],
                   nextId := s.nextId + 1 } = some s.nextId := by
        rw [TowerWorkspace.get_resource_label]
        dsimp only
        rw [hf₂]
        simp
      simp [TowerWorkspace.create_resource_label, hg₂]
    · rcases rest with _ | ⟨l₂, rest₂⟩
      · have hl₁ : l₁.id = ((([l₁] : List ResourceLabel).headD ⟨0, "", ""⟩).id) := by simp
        simp only [TowerWorkspace.create_resource_label, TowerWorkspace.get_resource_label, hf] at h
        simp at h
        obtain ⟨rfl, rfl, rfl⟩ := h
        simp [TowerWorkspace.create_resource_label, TowerWorkspace.get_resource_label, hf]
      · rw [hf] at hle
        simp [List.length_cons] at hle

end TowerInfra

namespace TowerInfra

/-- Witness for C1: all five ensure operations exercised concretely, each
second call returning the first call's identifier with an unchanged state
and no creation request. -/
theorem ensure_idempotent_witness :
    (remoteFix.members.filter (fun m => m.email = "alice@example.org")).length ≤ 1 ∧
    ((remoteFix.labels.filter (fun l => l.name = "CostCenter")).filter
        (fun l => l.value = "abc")).length ≤ 1 ∧
    TowerWorkspace.create_credentials cfgFix remoteFix =
      .ok (20, remoteFixCred,
        [Event.secretRead "arn:aws:secretsmanager:us-east-1:1:secret:forge",
         Event.credentialsCreate "demo-project", Event.credentialsEnsured 20]) ∧
    TowerOrganization.create "Sage Bionetworks" "sage-bionetworks"
        (TowerOrganization.create "Sage Bionetworks" "sage-bionetworks" remoteFix).2.1 =
      ((TowerOrganization.create "Sage Bionetworks" "sage-bionetworks" remoteFix).1,
       (TowerOrganization.create "Sage Bionetworks" "sage-bionetworks" remoteFix).2.1, []) ∧
    TowerWorkspace.create "demo-project" "demo-project"
        (TowerWorkspace.create "demo-project" "demo-project" remoteFix).2.1 =
      ((TowerWorkspace.create "demo-project" "demo-project" remoteFix).1,
       (TowerWorkspace.create "demo-project" "demo-project" remoteFix).2.1, []) ∧
    TowerOrganization.add_member "alice@example.org"
        (TowerOrganization.add_member "alice@example.org" remoteFix).2.1 =
      ((TowerOrganization.add_member "alice@example.org" remoteFix).1,
       (TowerOrganization.add_member "alice@example.org" remoteFix).2.1, []) ∧
    TowerWorkspace.create_credentials cfgFix remoteFixCred =
      .ok (20, remoteFixCred, [Event.credentialsEnsured 20]) ∧
    TowerWorkspace.create_resource_label "CostCenter" "abc"
        (TowerWorkspace.create_resource_label "CostCenter" "abc" remoteFix).2.1 =
      ((TowerWorkspace.create_resource_label "CostCenter" "abc" remoteFix).1,
       (TowerWorkspace.create_resource_label "CostCenter" "abc" remoteFix).2.1, []) :=
  ⟨by decide, by decide, by rfl,
   (ensure_idempotent remoteFix "Sage Bionetworks" "sage-bionetworks" "demo-project"
      "demo-project" "alice@example.org" "CostCenter" "abc" cfgFix).1 _ _ _ rfl,
   (ensure_idempotent remoteFix "Sage Bionetworks" "sage-bionetworks" "demo-project"
      "demo-project" "alice@example.org" "CostCenter" "abc" cfgFix).2.1 _ _ _ rfl,
   (ensure_idempotent remoteFix "Sage Bionetworks" "sage-bionetworks" "demo-project"
      "demo-project" "alice@example.org" "CostCenter" "abc" cfgFix).2.2.1 (by decide) _ _ _ rfl,
   (ensure_idempotent remoteFix "Sage Bionetworks" "sage-bionetworks" "demo-project"
      "demo-project" "alice@example.org" "CostCenter" "abc" cfgFix).2.2.2.1 20 remoteFixCred
      [Event.secretRead "arn:aws:secretsmanager:us-east-1:1:secret:forge",
       Event.credentialsCreate "demo-project", Event.credentialsEnsured 20] (by rfl),
   (ensure_idempotent remoteFix "Sage Bionetworks" "sage-bionetworks" "demo-project"
      "demo-project" "alice@example.org" "CostCenter" "abc" cfgFix).2.2.2.2 (by decide) _ _ _ rfl⟩

end TowerInfra

namespace TowerInfra

/-! ## C7 and C8: credential ensure, cache-hit frame and provider assertions -/

/-- C7: when a credential with the workspace's stack name already exists
remotely, `create_credentials` leaves the remote state unchanged and its
trace contains no secret read and no creation request. -/
theorem create_credentials_cache_hit_frame (cfg : WsConfig) (s : Remote) (c : Credential)
    (hc : c ∈ s.credentials) (hname : c.name = cfg.stackName) :
    ∀ cid t ev, TowerWorkspace.create_credentials cfg s = .ok (cid, t, ev) →
      t = s ∧ ev = [Event.credentialsEnsured cid] ∧
      (∀ a, Event.secretRead a ∉ ev) ∧ (∀ n, Event.credentialsCreate n ∉ ev) := by
  intro cid t ev h
  cases hf : s.credentials.find? (fun c' => c'.name = cfg.stackName) with
  | none =>
    rw [List.find?_eq_none] at hf
    exact absurd (by simpa using hname) (by simpa using hf c hc)
  | some c' =>
    simp only [TowerWorkspace.create_credentials, hf] at h
    split at h
    · split at h
      · obtain ⟨rfl, rfl, rfl⟩ := by simpa using h
        exact ⟨rfl, rfl, by simp, by simp⟩
      · exact absurd h (by simp)
    · exact absurd h (by simp)

/-- Witness for C7 at a concrete state holding the credential. -/
theorem create_credentials_cache_hit_frame_witness :
    ((⟨20, "demo-project", "aws", none⟩ : Credential) ∈ remoteFixCred.credentials) ∧
    (remoteFixCred = remoteFixCred ∧
     [Event.credentialsEnsured 20] = [Event.credentialsEnsured 20] ∧
     (∀ a, Event.secretRead a ∉ [Event.credentialsEnsured 20]) ∧
     (∀ n, Event.credentialsCreate n ∉ [Event.credentialsEnsured 20])) :=
  ⟨by decide,
   create_credentials_cache_hit_frame cfgFix remoteFixCred ⟨20, "demo-project", "aws", none⟩
     (by decide) (by rfl) 20 remoteFixCred [Event.credentialsEnsured 20] (by rfl)⟩

/-- C8: with a credential found under the expected name (the first match),
`create_credentials` raises exactly when that credential has a provider
other than `aws` or is soft-deleted; otherwise it returns the credential's
identifier with the state unchanged. -/
theorem create_credentials_assert_iff (cfg : WsConfig) (s : Remote) (c : Credential)
    (hf : s.credentials.find? (fun c' => c'.name = cfg.stackName) = some c) :
    ((∃ e, TowerWorkspace.create_credentials cfg s = .error e) ↔
      (c.provider ≠ "aws" ∨ c.deleted ≠ none)) ∧
    (c.provider = "aws" → c.deleted = none →
      TowerWorkspace.create_credentials cfg s =
        .ok (c.id, s, [Event.credentialsEnsured c.id])) := by
  constructor
  · constructor
    · rintro ⟨e, he⟩
      by_contra hcon
      push_neg at hcon
      obtain ⟨hp, hd⟩ := hcon
      simp [TowerWorkspace.create_credentials, hf, hp, hd] at he
    · intro hor
      rcases hor with hp | hd
      · exact ⟨"AssertionError: credential provider is not aws",
          by simp [TowerWorkspace.create_credentials, hf, hp]⟩
      · by_cases hp : c.provider = "aws"
        · exact ⟨"AssertionError: credential is soft-deleted",
            by simp [TowerWorkspace.create_credentials, hf, hp, hd]⟩
        · exact ⟨"AssertionError: credential provider is not aws",
            by simp [TowerWorkspace.create_credentials, hf, hp]⟩
  · intro hp hd
    simp [TowerWorkspace.create_credentials, hf, hp, hd]

/-- Witness for C8: the valid credential is returned; a soft-deleted one
makes the call fail. -/
theorem create_credentials_assert_iff_witness :
    (remoteFixCred.credentials.find? (fun c' => c'.name = cfgFix.stackName) =
      some ⟨20, "demo-project", "aws", none⟩) ∧
    TowerWorkspace.create_credentials cfgFix remoteFixCred =
      .ok (20, remoteFixCred, [Event.credentialsEnsured 20]) ∧
    (∃ e, TowerWorkspace.create_credentials cfgFix
      { remoteFix with credentials := [⟨7, "demo-project", "aws", some "2024-01-01"⟩] } =
        .error e) :=
  ⟨by rfl,
   (create_credentials_assert_iff cfgFix remoteFixCred ⟨20, "demo-project", "aws", none⟩
      (by rfl)).2 rfl rfl,
   (create_credentials_assert_iff cfgFix
      { remoteFix with credentials := [⟨7, "demo-project", "aws", some "2024-01-01"⟩] }
      ⟨7, "demo-project", "aws", some "2024-01-01"⟩ (by rfl)).1.mpr (.inr (by simp))⟩

end TowerInfra

namespace TowerInfra

/-! ## C5: generate_compute_environment and purity -/

/-- C5 counterexample: `generate_compute_environment` is not a pure
function of (stack outputs, VPC outputs, tags, pricing model, policy
version): two calls with identical inputs but different remote states
return different specifications (the embedded credentials identifier
differs), and the call's trace is nonempty — it performs remote
credential and resource-label resolution. -/
theorem generate_ce_not_pure_counterexample :
    ((TowerWorkspace.generate_compute_environment cfgFix "ce" "SPOT"
        { remoteFix with credentials := [⟨5, "demo-project", "aws", none⟩] }).toOption.map
      (fun r => r.1.credentialsId) = some 5) ∧
    ((TowerWorkspace.generate_compute_environment cfgFix "ce" "SPOT"
        { remoteFix with credentials := [⟨7, "demo-project", "aws", none⟩] }).toOption.map
      (fun r => r.1.credentialsId) = some 7) ∧
    ((TowerWorkspace.generate_compute_environment cfgFix "ce" "SPOT"
        { remoteFix with credentials := [⟨5, "demo-project", "aws", none⟩] }).toOption.map
      (fun r => r.2.2) =
      some [Event.credentialsEnsured 5, Event.labelCreate "CostCenter" "abc"]) :=
  ⟨by rfl, by rfl, by rfl⟩

/-- C5 (amended): `generate_compute_environment` issues remote
credential/label get-or-create calls, but apart from the identifiers these
resolve it is pure: given equal stack outputs, VPC outputs, name, model,
resolved credential identifier and resolved label identifiers, two runs
from arbitrary remote states build the same specification. -/
theorem generate_ce_determined_by_resolved_ids
    (cfg₁ cfg₂ : WsConfig) (nm md : String) (s₁ s₂ : Remote)
    (hst : cfg₁.stack = cfg₂.stack) (hv : cfg₁.vpc = cfg₂.vpc)
    (hcred : (TowerWorkspace.create_credentials cfg₁ s₁).toOption.map (fun r => r.1) =
      (TowerWorkspace.create_credentials cfg₂ s₂).toOption.map (fun r => r.1))
    (hlab : (TowerWorkspace.create_credentials cfg₁ s₁).toOption.map
        (fun r => (TowerWorkspace.ensure_labels cfg₁.tags r.2.1).1) =
      (TowerWorkspace.create_credentials cfg₂ s₂).toOption.map
        (fun r => (TowerWorkspace.ensure_labels cfg₂.tags r.2.1).1)) :
    (TowerWorkspace.generate_compute_environment cfg₁ nm md s₁).toOption.map (fun r => r.1) =
      (TowerWorkspace.generate_compute_environment cfg₂ nm md s₂).toOption.map (fun r => r.1) := by
  rw [TowerWorkspace.generate_compute_environment, TowerWorkspace.generate_compute_environment]
  by_cases hmd : (md = "SPOT" || md = "EC2") = true
  · rw [if_pos hmd, if_pos hmd]
    cases hc₁ : TowerWorkspace.create_credentials cfg₁ s₁ with
    | error e₁ =>
      cases hc₂ : TowerWorkspace.create_credentials cfg₂ s₂ with
      | error e₂ => simp [Except.toOption]
      | ok r₂ => rw [hc₁, hc₂] at hcred; simp [Except.toOption] at hcred
    | ok r₁ =>
      cases hc₂ : TowerWorkspace.create_credentials cfg₂ s₂ with
      | error e₂ => rw [hc₁, hc₂] at hcred; simp [Except.toOption] at hcred
      | ok r₂ =>
        rw [hc₁, hc₂] at hcred hlab
        obtain ⟨c₁, u₁, ev₁⟩ := r₁
        obtain ⟨c₂, u₂, ev₂⟩ := r₂
        simp [Except.toOption] at hcred hlab ⊢
        rw [hst, hv, hcred, hlab]
  · rw [if_neg hmd, if_neg hmd]

/-- Witness for the amended C5 theorem: two remote states differing in
their member lists resolve the same identifiers and build the same
specification. -/
theorem generate_ce_determined_witness :
    (cfgFix.stack = cfgFix.stack) ∧
    ((TowerWorkspace.create_credentials cfgFix remoteFixCred).toOption.map (fun r => r.1) =
      (TowerWorkspace.create_credentials cfgFix
        { remoteFixCred with members := [] }).toOption.map (fun r => r.1)) ∧
    ((TowerWorkspace.generate_compute_environment cfgFix "ce" "SPOT"
        remoteFixCred).toOption.map (fun r => r.1) =
      (TowerWorkspace.generate_compute_environment cfgFix "ce" "SPOT"
        { remoteFixCred with members := [] }).toOption.map (fun r => r.1)) :=
  ⟨rfl, by rfl,
   generate_ce_determined_by_resolved_ids cfgFix cfgFix "ce" "SPOT" remoteFixCred
     { remoteFixCred with members := [] } rfl rfl (by rfl) (by rfl)⟩

end TowerInfra

namespace TowerInfra

/-! ## C6: compute-environment cleanup -/

theorem cleanup_loop_spec (cfg : WsConfig) (snap : List ComputeEnv) : ∀ (s : Remote),
    TowerWorkspace.cleanup_loop cfg snap s =
      ({ s with computeEnvs := (s.computeEnvs.filter
          (fun c => !(cleanupDeletedIds cfg snap).contains c.id)) },
       snap.flatMap (cleanupEvFor cfg)) := by
  induction snap with
  | nil =>
    intro s
    have hfix : (s.computeEnvs.filter (fun c => !(cleanupDeletedIds cfg []).contains c.id)) =
        s.computeEnvs := List.filter_eq_self.mpr (fun a _ => rfl)
    rw [TowerWorkspace.cleanup_loop, hfix]
    rfl
  | cons ce rest ih =>
    intro s
    by_cases hk : shouldKeepCE cfg ce = true
    · have hk' : (pyEndsWith ce.name CE_VERSION && TowerWorkspace.has_launchers cfg) = true := by
        simpa [shouldKeepCE] using hk
      have hdel : cleanupDeletedIds cfg (ce :: rest) = cleanupDeletedIds cfg rest := by
        simp [cleanupDeletedIds, List.filter_cons, hk]
      have hev : cleanupEvFor cfg ce = [] := by simp [cleanupEvFor, hk]
      rw [TowerWorkspace.cleanup_loop, if_pos hk', ih s, hdel]
      simp [hev]
    · have hkf : shouldKeepCE cfg ce = false := by simpa using hk
      have hk' : (pyEndsWith ce.name CE_VERSION && TowerWorkspace.has_launchers cfg) = false := by
        simpa [shouldKeepCE] using hkf
      by_cases ha : ce.activeJobs = true
      · have hdel : cleanupDeletedIds cfg (ce :: rest) = cleanupDeletedIds cfg rest := by
          simp [cleanupDeletedIds, List.filter_cons, hkf, ha]
        have hev : cleanupEvFor cfg ce = [Event.ceDelete ce.id, Event.ceSkipLogged ce.name] := by
          simp [cleanupEvFor, hkf, ha]
        rw [TowerWorkspace.cleanup_loop, if_neg (by simp [hk']), if_pos ha, ih s, hdel]
        simp [hev]
      · have haf : ce.activeJobs = false := by simpa using ha
        have hdel : cleanupDeletedIds cfg (ce :: rest) = ce.id :: cleanupDeletedIds cfg rest := by
          simp [cleanupDeletedIds, List.filter_cons, hkf, haf]
        have hev : cleanupEvFor cfg ce = [Event.ceDelete ce.id] := by
          simp [cleanupEvFor, hkf, haf]
        have hcomp : (s.computeEnvs.filter (fun q => q.id ≠ ce.id)).filter
            (fun c => !(cleanupDeletedIds cfg rest).contains c.id) =
            s.computeEnvs.filter
              (fun c => !(cleanupDeletedIds cfg (ce :: rest)).contains c.id) := by
          rw [List.filter_filter, hdel]
          apply List.filter_congr
          intro x _
          by_cases hx : x.id = ce.id
          · simp [hx, List.contains_cons]
          · simp [hx, List.contains_cons]
        rw [TowerWorkspace.cleanup_loop, if_neg (by simp [hk']), if_neg (by simp [haf])]
        dsimp only
        rw [ih]
        refine congrArg₂ Prod.mk ?_ ?_
        · rw [← hcomp]
        · simp [hev]

end TowerInfra

namespace TowerInfra

/-- C6: cleanup issues a delete request for exactly the compute
environments whose name lacks the current version tag or whose workspace
has no launch-capable participant; an environment whose deletion the
remote refuses because of active jobs stays, is logged as skipped, and the
loop continues (every snapshot entry is decided); environments with the
current version tag in a launcher-capable workspace are kept untouched. -/
theorem cleanup_compute_environments_spec (cfg : WsConfig) (s : Remote)
    (hids : (s.computeEnvs.map (fun ce => ce.id)).Nodup) :
    (∀ ce ∈ s.computeEnvs,
      (Event.ceDelete ce.id ∈ (TowerWorkspace.cleanup_compute_environments cfg s).2 ↔
        ¬(pyEndsWith ce.name CE_VERSION = true ∧ TowerWorkspace.has_launchers cfg = true))) ∧
    (∀ ce ∈ s.computeEnvs,
      (ce ∈ (TowerWorkspace.cleanup_compute_environments cfg s).1.computeEnvs ↔
        ((pyEndsWith ce.name CE_VERSION = true ∧ TowerWorkspace.has_launchers cfg = true) ∨
          ce.activeJobs = true))) ∧
    (∀ ce ∈ s.computeEnvs,
      ¬(pyEndsWith ce.name CE_VERSION = true ∧ TowerWorkspace.has_launchers cfg = true) →
      ce.activeJobs = true →
      Event.ceSkipLogged ce.name ∈ (TowerWorkspace.cleanup_compute_environments cfg s).2) := by
  have hspec := cleanup_loop_spec cfg s.computeEnvs s
  have hkeep : ∀ ce : ComputeEnv, shouldKeepCE cfg ce = true ↔
      (pyEndsWith ce.name CE_VERSION = true ∧ TowerWorkspace.has_launchers cfg = true) := by
    intro ce
    simp [shouldKeepCE]
  refine ⟨fun ce hce => ?_, fun ce hce => ?_, fun ce hce hnk ha => ?_⟩
  · rw [TowerWorkspace.cleanup_compute_environments, hspec]
    dsimp only
    rw [List.mem_flatMap]
    constructor
    · rintro ⟨ce', hce', hev⟩
      have hnk : shouldKeepCE cfg ce' = false ∧ ce'.id = ce.id := by
        rw [cleanupEvFor] at hev
        by_cases hk : shouldKeepCE cfg ce' = true
        · rw [if_pos hk] at hev
          simp at hev
        · have hkf : shouldKeepCE cfg ce' = false := by simpa using hk
          rw [if_neg (by simp [hkf])] at hev
          refine ⟨hkf, ?_⟩
          by_cases ha : ce'.activeJobs = true
          · rw [if_pos ha] at hev
            simp at hev
            exact hev.symm
          · rw [if_neg ha] at hev
            simp at hev
            exact hev.symm
      obtain rfl : ce = ce' :=
        List.inj_on_of_nodup_map hids hce hce' hnk.2.symm
      intro hand
      rw [← hkeep ce] at hand
      rw [hnk.1] at hand
      exact absurd hand (by simp)
    · intro hn
      have hkf : shouldKeepCE cfg ce = false := by
        cases hb : shouldKeepCE cfg ce with
        | false => rfl
        | true => exact absurd ((hkeep ce).mp hb) hn
      refine ⟨ce, hce, ?_⟩
      rw [cleanupEvFor, if_neg (by simp [hkf])]
      by_cases ha : ce.activeJobs = true
      · rw [if_pos ha]
        simp
      · rw [if_neg ha]
        simp
  · rw [TowerWorkspace.cleanup_compute_environments, hspec]
    dsimp only
    rw [List.mem_filter]
    have hcont : (cleanupDeletedIds cfg s.computeEnvs).contains ce.id = true ↔
        (shouldKeepCE cfg ce = false ∧ ce.activeJobs = false) := by
      constructor
      · intro hc
        rw [cleanupDeletedIds, List.contains_iff_exists_mem_beq] at hc
        obtain ⟨i, hi, hbeq⟩ := hc
        obtain ⟨ce', hce'mem, rfl⟩ := List.mem_map.mp hi
        have hq := (List.mem_filter.mp hce'mem).2
        have hid : ce.id = ce'.id := by simpa using hbeq
        obtain rfl : ce = ce' :=
          List.inj_on_of_nodup_map hids hce (List.mem_filter.mp hce'mem).1 hid
        simpa using hq
      · rintro ⟨h1, h2⟩
        rw [cleanupDeletedIds, List.contains_iff_exists_mem_beq]
        exact ⟨ce.id, List.mem_map.mpr
          ⟨ce, List.mem_filter.mpr ⟨hce, by simp [h1, h2]⟩, rfl⟩, by simp⟩
    constructor
    · rintro ⟨-, hp⟩
      by_cases hkb : shouldKeepCE cfg ce = true
      · exact .inl ((hkeep ce).mp hkb)
      · by_cases hab : ce.activeJobs = true
        · exact .inr hab
        · exfalso
          have : (cleanupDeletedIds cfg s.computeEnvs).contains ce.id = true :=
            hcont.mpr ⟨by simpa using hkb, by simpa using hab⟩
          rw [this] at hp
          exact absurd hp (by simp)
    · intro hor
      refine ⟨hce, ?_⟩
      have hcf : (cleanupDeletedIds cfg s.computeEnvs).contains ce.id = false := by
        cases hcc : (cleanupDeletedIds cfg s.computeEnvs).contains ce.id with
        | false => rfl
        | true =>
          obtain ⟨h1, h2⟩ := hcont.mp hcc
          rcases hor with hky | hab
          · rw [← hkeep ce] at hky
            rw [h1] at hky
            exact absurd hky (by simp)
          · rw [h2] at hab
            exact absurd hab (by simp)
      rw [hcf]
      rfl
  · rw [TowerWorkspace.cleanup_compute_environments, hspec]
    dsimp only
    have hkf : shouldKeepCE cfg ce = false := by
      cases hb : shouldKeepCE cfg ce with
      | false => rfl
      | true => exact absurd ((hkeep ce).mp hb) hnk
    refine List.mem_flatMap.mpr ⟨ce, hce, ?_⟩
    rw [cleanupEvFor, if_neg (by simp [hkf]), if_pos ha]
    simp

end TowerInfra

namespace TowerInfra

/-- Witness for C6: on a snapshot with a current-version environment, a
stale one, and a stale one with active jobs, cleanup deletes the stale
one, keeps the current one, and logs the skipped active one. -/
theorem cleanup_compute_environments_spec_witness :
    (remoteFixCEs.computeEnvs.map (fun ce => ce.id)).Nodup ∧
    Event.ceDelete 31 ∈ (TowerWorkspace.cleanup_compute_environments cfgFix remoteFixCEs).2 ∧
    ((⟨30, "demo-project-spot-v12", "aws-batch", "AVAILABLE", false⟩ : ComputeEnv) ∈
      (TowerWorkspace.cleanup_compute_environments cfgFix remoteFixCEs).1.computeEnvs) ∧
    Event.ceSkipLogged "demo-project-ondemand-v11" ∈
      (TowerWorkspace.cleanup_compute_environments cfgFix remoteFixCEs).2 :=
  ⟨by decide,
   ((cleanup_compute_environments_spec cfgFix remoteFixCEs (by decide)).1
      ⟨31, "demo-project-spot-v11", "aws-batch", "AVAILABLE", false⟩ (by decide)).mpr
     (by decide),
   ((cleanup_compute_environments_spec cfgFix remoteFixCEs (by decide)).2.1
      ⟨30, "demo-project-spot-v12", "aws-batch", "AVAILABLE", false⟩ (by decide)).mpr
     (.inl (by decide)),
   (cleanup_compute_environments_spec cfgFix remoteFixCEs (by decide)).2.2
      ⟨32, "demo-project-ondemand-v11", "aws-batch", "AVAILABLE", true⟩ (by decide)
      (by decide) (by decide)⟩

end TowerInfra

namespace TowerInfra

/-! ## C9: credentials precede compute-environment creation -/

theorem credBeforeCE_mono (l : List Event) : ∀ (seen seen' : List Nat),
    (∀ i ∈ seen, i ∈ seen') → credBeforeCE seen l = true → credBeforeCE seen' l = true := by
  induction l with
  | nil => intro seen seen' _ _; rfl
  | cons e rest ih =>
    intro seen seen' hsub h
    cases e <;> simp only [credBeforeCE] at h ⊢
    case ceCreate spec =>
      simp only [Bool.and_eq_true] at h ⊢
      obtain ⟨h1, h2⟩ := h
      refine ⟨?_, ih seen seen' hsub h2⟩
      have hmem : spec.credentialsId ∈ seen := by
        simpa [List.contains_iff_exists_mem_beq] using h1
      simpa [List.contains_iff_exists_mem_beq] using hsub _ hmem
    case credentialsEnsured i =>
      refine ih (i :: seen) (i :: seen') ?_ h
      intro j hj
      rcases List.mem_cons.mp hj with rfl | hj'
      · exact List.mem_cons_self _ _
      · exact List.mem_cons_of_mem _ (hsub j hj')
    all_goals exact ih seen seen' hsub h

theorem credBeforeCE_append_of_no_ce (l : List Event) : ∀ (seen : List Nat) (rest : List Event),
    (∀ spec, Event.ceCreate spec ∉ l) → credBeforeCE seen rest = true →
    credBeforeCE seen (l ++ rest) = true := by
  induction l with
  | nil => intro seen rest _ h; simpa using h
  | cons e tl ih =>
    intro seen rest hno h
    have hno' : ∀ spec, Event.ceCreate spec ∉ tl := by
      intro spec hmem
      exact hno spec (List.mem_cons_of_mem _ hmem)
    cases e <;> simp only [List.cons_append, credBeforeCE]
    case ceCreate spec =>
      exact absurd
        (show Event.ceCreate spec ∈ Event.ceCreate spec :: tl from List.mem_cons_self _ _)
        (hno spec)
    case credentialsEnsured i =>
      exact ih (i :: seen) rest hno'
        (credBeforeCE_mono rest seen (i :: seen) (fun j hj => List.mem_cons_of_mem _ hj) h)
    all_goals exact ih seen rest hno' h

theorem credBeforeCE_decomp : ∀ (pre : List Event) (seen : List Nat) (spec : CESpec)
    (post : List Event),
    credBeforeCE seen (pre ++ Event.ceCreate spec :: post) = true →
    spec.credentialsId ∈ seen ∨ Event.credentialsEnsured spec.credentialsId ∈ pre := by
  intro pre
  induction pre with
  | nil =>
    intro seen spec post h
    simp only [List.nil_append, credBeforeCE, Bool.and_eq_true] at h
    exact .inl (by simpa [List.contains_iff_exists_mem_beq] using h.1)
  | cons e tl ih =>
    intro seen spec post h
    cases e <;> simp only [List.cons_append, credBeforeCE, Bool.and_eq_true] at h
    case ceCreate spec' =>
      rcases ih seen spec post h.2 with hl | hr
      · exact .inl hl
      · exact .inr (List.mem_cons_of_mem _ hr)
    case credentialsEnsured i =>
      rcases ih (i :: seen) spec post h with hl | hr
      · rcases List.mem_cons.mp hl with heq | hl'
        · exact .inr (by rw [heq]; exact List.mem_cons_self _ _)
        · exact .inl hl'
      · exact .inr (List.mem_cons_of_mem _ hr)
    all_goals
      rcases ih seen spec post h with hl | hr
      · exact .inl hl
      · exact .inr (List.mem_cons_of_mem _ hr)

end TowerInfra

namespace TowerInfra

theorem create_resource_label_frame (n v : String) (s : Remote) :
    (TowerWorkspace.create_resource_label n v s).2.1.credentials = s.credentials ∧
    (∀ e ∈ (TowerWorkspace.create_resource_label n v s).2.2, e = Event.labelCreate n v) := by
  rw [TowerWorkspace.create_resource_label]
  cases TowerWorkspace.get_resource_label n v s with
  | none => exact ⟨rfl, by intro e he; simpa using he⟩
  | some lid => exact ⟨rfl, by intro e he; simp at he⟩

theorem ensure_labels_frame : ∀ (tags : List (String × String)) (s : Remote),
    (TowerWorkspace.ensure_labels tags s).2.1.credentials = s.credentials ∧
    (∀ spec, Event.ceCreate spec ∉ (TowerWorkspace.ensure_labels tags s).2.2)
  | [], s => ⟨rfl, by intro spec h; simp [TowerWorkspace.ensure_labels] at h⟩
  | (k, v) :: rest, s => by
    have h₁ := create_resource_label_frame k v s
    have h₂ := ensure_labels_frame rest (TowerWorkspace.create_resource_label k v s).2.1
    constructor
    · rw [TowerWorkspace.ensure_labels]
      dsimp only
      rw [h₂.1, h₁.1]
    · intro spec hmem
      rw [TowerWorkspace.ensure_labels] at hmem
      dsimp only at hmem
      rcases List.mem_append.mp hmem with hm | hm
      · exact absurd (h₁.2 _ hm) (by simp)
      · exact h₂.2 spec hm

theorem create_credentials_spec (cfg : WsConfig) (s : Remote) (cid : Nat) (t : Remote)
    (ev : List Event) (h : TowerWorkspace.create_credentials cfg s = .ok (cid, t, ev)) :
    (∀ c ∈ s.credentials, c ∈ t.credentials) ∧
    (∃ c ∈ t.credentials, c.id = cid) ∧
    (∀ spec, Event.ceCreate spec ∉ ev) ∧
    (∀ seen rest, credBeforeCE (cid :: seen) rest = true →
      credBeforeCE seen (ev ++ rest) = true) := by
  cases hf : s.credentials.find? (fun c => c.name = cfg.stackName) with
  | some c =>
    simp only [TowerWorkspace.create_credentials, hf] at h
    split at h
    · split at h
      · obtain ⟨rfl, rfl, rfl⟩ := by simpa using h
        refine ⟨fun c' hc' => hc', ⟨c, List.mem_of_find?_eq_some hf, rfl⟩, by simp, ?_⟩
        intro seen rest hrest
        simpa [credBeforeCE] using hrest
      · exact absurd h (by simp)
    · exact absurd h (by simp)
  | none =>
    simp only [TowerWorkspace.create_credentials, hf] at h
    obtain ⟨rfl, rfl, rfl⟩ := by simpa using h
    refine ⟨fun c' hc' => by simp [hc'], ⟨⟨s.nextId, cfg.stackName, "aws", none⟩, by simp, rfl⟩,
      by simp, ?_⟩
    intro seen rest hrest
    simpa [credBeforeCE] using hrest

theorem generate_ce_spec (cfg : WsConfig) (nm md : String) (s : Remote) (spec : CESpec)
    (t : Remote) (ev : List Event)
    (h : TowerWorkspace.generate_compute_environment cfg nm md s = .ok (spec, t, ev)) :
    (∀ c ∈ s.credentials, c ∈ t.credentials) ∧
    (∃ c ∈ t.credentials, c.id = spec.credentialsId) ∧
    (∀ spec', Event.ceCreate spec' ∉ ev) ∧
    (∀ seen rest, credBeforeCE (spec.credentialsId :: seen) rest = true →
      credBeforeCE seen (ev ++ rest) = true) := by
  rw [TowerWorkspace.generate_compute_environment] at h
  split at h
  · cases hc : TowerWorkspace.create_credentials cfg s with
    | error e => rw [hc] at h; exact absurd h (by simp)
    | ok r =>
      rw [hc] at h
      obtain ⟨cid, u, ev₁⟩ := r
      dsimp only at h
      obtain ⟨rfl, rfl, rfl⟩ := by simpa using h
      have hcs := create_credentials_spec cfg s cid u ev₁ hc
      have hlf := ensure_labels_frame cfg.tags u
      have hcid : (TowerWorkspace.generate_compute_environment_data cfg.stack cfg.vpc nm md
          (TowerWorkspace.ensure_labels cfg.tags u).1 cid).credentialsId = cid := rfl
      refine ⟨?_, ?_, ?_, ?_⟩
      · intro c hc'
        rw [hlf.1]
        exact hcs.1 c hc'
      · obtain ⟨c, hcm, hcd⟩ := hcs.2.1
        exact ⟨c, by rw [hlf.1]; exact hcm, by rw [hcid]; exact hcd⟩
      · intro spec' hmem
        rcases List.mem_append.mp hmem with hm | hm
        · exact hcs.2.2.1 spec' hm
        · exact hlf.2 spec' hm
      · intro seen rest hrest
        rw [List.append_assoc]
        refine hcs.2.2.2 seen _ ?_
        refine credBeforeCE_append_of_no_ce _ (cid :: seen) rest hlf.2 ?_
        rw [hcid] at hrest
        exact hrest
  · exact absurd h (by simp)

end TowerInfra

namespace TowerInfra

/-- C9: in a successful `create_compute_environment` run, every
compute-environment creation request in the trace embeds a credentials
identifier marked as ensured by an earlier `create_credentials` return in
the same trace, and the resulting remote state holds a credential with
that identifier — no creation request precedes the workspace having its
credential. -/
theorem ce_create_preceded_by_credentials (cfg : WsConfig) (s : Remote)
    (ids : Option Nat × Option Nat) (t : Remote) (ev : List Event)
    (h : TowerWorkspace.create_compute_environment cfg s = .ok (ids, t, ev)) :
    (∀ pre spec post, ev = pre ++ Event.ceCreate spec :: post →
       Event.credentialsEnsured spec.credentialsId ∈ pre) ∧
    (∀ spec, Event.ceCreate spec ∈ ev → ∃ c ∈ t.credentials, c.id = spec.credentialsId) := by
  rw [TowerWorkspace.create_compute_environment] at h
  dsimp only at h
  rcases hff : TowerWorkspace.find_existing_ces (cfg.stackName ++ "-spot-" ++ CE_VERSION)
      (cfg.stackName ++ "-ondemand-" ++ CE_VERSION) s.computeEnvs with ⟨o₁, o₂⟩
  rw [hff] at h
  dsimp only at h
  cases o₁ with
  | some sid =>
    cases o₂ with
    | some eid =>
      obtain ⟨rfl, rfl, rfl⟩ := by simpa using h
      constructor
      · intro pre spec post hdec
        exact absurd hdec (by simp)
      · intro spec hmem
        simp at hmem
    | none =>
      cases hg : TowerWorkspace.generate_compute_environment cfg
          (cfg.stackName ++ "-ondemand-" ++ CE_VERSION) "EC2" s with
      | error e => rw [hg] at h; exact absurd h (by simp)
      | ok r =>
        rw [hg] at h
        obtain ⟨spec, s₁, ev₁⟩ := r
        dsimp only at h
        obtain ⟨rfl, rfl, rfl⟩ := by simpa using h
        have hgs := generate_ce_spec cfg _ "EC2" s spec s₁ ev₁ hg
        constructor
        · intro pre spec' post hdec
          have hcb : credBeforeCE [] (ev₁ ++ [Event.ceCreate spec]) = true := by
            refine hgs.2.2.2 [] _ ?_
            simp [credBeforeCE, List.contains_cons]
          rw [hdec] at hcb
          rcases credBeforeCE_decomp pre [] spec' post hcb with hl | hr
          · simp at hl
          · exact hr
        · intro spec' hmem
          rcases List.mem_append.mp hmem with hm | hm
          · exact absurd hm (hgs.2.2.1 spec')
          · obtain rfl : spec' = spec := by simpa using hm
            obtain ⟨c, hcm, hcd⟩ := hgs.2.1
            exact ⟨c, by simpa [TowerWorkspace.create_ce_remote] using hcm, hcd⟩
  | none =>
    cases hg : TowerWorkspace.generate_compute_environment cfg
        (cfg.stackName ++ "-spot-" ++ CE_VERSION) "SPOT" s with
    | error e => rw [hg] at h; exact absurd h (by simp)
    | ok r =>
      rw [hg] at h
      obtain ⟨spec, s₁, ev₁⟩ := r
      dsimp only at h
      have hgs := generate_ce_spec cfg _ "SPOT" s spec s₁ ev₁ hg
      cases o₂ with
      | some eid =>
        obtain ⟨rfl, rfl, rfl⟩ := by simpa using h
        constructor
        · intro pre spec' post hdec
          have hcb : credBeforeCE []
              (ev₁ ++ [Event.ceCreate spec, Event.cePrimarySet (TowerWorkspace.create_ce_remote (cfg.stackName ++ "-spot-" ++ CE_VERSION) s₁).1]) = true := by
            refine hgs.2.2.2 [] _ ?_
            simp [credBeforeCE, List.contains_cons]
          rw [hdec] at hcb
          rcases credBeforeCE_decomp pre [] spec' post hcb with hl | hr
          · simp at hl
          · exact hr
        · intro spec' hmem
          rcases List.mem_append.mp hmem with hm | hm
          · exact absurd hm (hgs.2.2.1 spec')
          · obtain rfl : spec' = spec := by
              rcases List.mem_cons.mp hm with heq | hm'
              · exact (by simpa using heq)
              · simp at hm'
            obtain ⟨c, hcm, hcd⟩ := hgs.2.1
            exact ⟨c, by simpa [TowerWorkspace.create_ce_remote] using hcm, hcd⟩
      | none =>
        cases hg₂ : TowerWorkspace.generate_compute_environment cfg
            (cfg.stackName ++ "-ondemand-" ++ CE_VERSION) "EC2"
            (TowerWorkspace.create_ce_remote (cfg.stackName ++ "-spot-" ++ CE_VERSION) s₁).2 with
        | error e => rw [hg₂] at h; exact absurd h (by simp)
        | ok r₂ =>
          rw [hg₂] at h
          obtain ⟨spec₂, s₂, ev₂⟩ := r₂
          dsimp only at h
          obtain ⟨rfl, rfl, rfl⟩ := by simpa using h
          have hgs₂ := generate_ce_spec cfg _ "EC2" _ spec₂ s₂ ev₂ hg₂
          constructor
          · intro pre spec' post hdec
            have hcb : credBeforeCE []
                (ev₁ ++ ([Event.ceCreate spec, Event.cePrimarySet (TowerWorkspace.create_ce_remote (cfg.stackName ++ "-spot-" ++ CE_VERSION) s₁).1] ++
                  (ev₂ ++ [Event.ceCreate spec₂]))) = true := by
              refine hgs.2.2.2 [] _ ?_
              simp only [credBeforeCE, List.contains_cons]
              have hstep : credBeforeCE [spec.credentialsId]
                  (ev₂ ++ [Event.ceCreate spec₂]) = true := by
                refine hgs₂.2.2.2 [spec.credentialsId] _ ?_
                simp [credBeforeCE, List.contains_cons]
              simp [hstep]
            have hcb' : credBeforeCE [] (pre ++ Event.ceCreate spec' :: post) = true := by
              rw [← hdec]
              exact hcb
            rcases credBeforeCE_decomp pre [] spec' post hcb' with hl | hr
            · simp at hl
            · exact hr
          · intro spec' hmem
            have hcred₂ : ∀ c ∈ s₁.credentials, c ∈ s₂.credentials := by
              intro c hc
              exact hgs₂.1 c (by simpa [TowerWorkspace.create_ce_remote] using hc)
            rcases List.mem_append.mp hmem with hm | hm
            · exact absurd hm (hgs.2.2.1 spec')
            · rcases List.mem_cons.mp hm with heq | hm'
              · obtain rfl : spec' = spec := by simpa using heq
                obtain ⟨c, hcm, hcd⟩ := hgs.2.1
                exact ⟨c, by simpa [TowerWorkspace.create_ce_remote] using hcred₂ c hcm, hcd⟩
              · rcases List.mem_cons.mp hm' with heq | hm''
                · exact absurd heq (by simp)
                · rcases List.mem_append.mp hm'' with hm₃ | hm₃
                  · exact absurd hm₃ (hgs₂.2.2.1 spec')
                  · obtain rfl : spec' = spec₂ := by simpa using hm₃
                    obtain ⟨c, hcm, hcd⟩ := hgs₂.2.1
                    exact ⟨c, by simpa [TowerWorkspace.create_ce_remote] using hcm, hcd⟩

/-- C9 witness: on the fixture configuration, the run creates both
environments and the SPOT creation event in the trace is indeed preceded
by the marker that its credentials id (20) was ensured. -/
theorem ce_create_preceded_by_credentials_witness :
    Event.credentialsEnsured ceSpecSpotFix.credentialsId ∈
      [Event.secretRead "arn:aws:secretsmanager:us-east-1:1:secret:forge",
       Event.credentialsCreate "demo-project", Event.credentialsEnsured 20,
       Event.labelCreate "CostCenter" "abc"] :=
  (ce_create_preceded_by_credentials cfgFix remoteFix (some 22, some 23) ceFinalFix
      ceTraceFix (by rfl)).1
    [Event.secretRead "arn:aws:secretsmanager:us-east-1:1:secret:forge",
     Event.credentialsCreate "demo-project", Event.credentialsEnsured 20,
     Event.labelCreate "CostCenter" "abc"]
    ceSpecSpotFix
    [Event.cePrimarySet 22, Event.credentialsEnsured 20, Event.ceCreate ceSpecEc2Fix]
    (by rfl)

end TowerInfra

namespace TowerInfra

/-! ## C2/C10: participant reconciliation machinery -/

theorem participantId_inj {l : List Participant}
    (h : (l.map (fun p => p.participantId)).Nodup) :
    ∀ p₁ ∈ l, ∀ p₂ ∈ l, p₁.participantId = p₂.participantId → p₁ = p₂ := by
  intro p₁ h₁ p₂ h₂ he
  exact List.inj_on_of_nodup_map h h₁ h₂ he

theorem memberId_inj : ∀ (l : List Participant),
    (l.filterMap (fun p => p.memberId)).Nodup →
    ∀ p₁ ∈ l, ∀ p₂ ∈ l, ∀ mid : Nat,
      p₁.memberId = some mid → p₂.memberId = some mid → p₁ = p₂ := by
  intro l
  induction l with
  | nil => intro _ p₁ h₁ _ _ _ _ _; exact absurd h₁ (List.not_mem_nil _)
  | cons a l ih =>
    intro h p₁ h₁ p₂ h₂ mid hm₁ hm₂
    have htl : (l.filterMap (fun p => p.memberId)).Nodup := by
      rcases ha : a.memberId with _ | v
      · simpa [List.filterMap_cons, ha] using h
      · have h' : v ∉ l.filterMap (fun p => p.memberId) ∧
            (l.filterMap (fun p => p.memberId)).Nodup := by
          simpa [List.filterMap_cons, ha, List.nodup_cons] using h
        exact h'.2
    rcases List.mem_cons.mp h₁ with rfl | h₁'
    · rcases List.mem_cons.mp h₂ with rfl | h₂'
      · rfl
      · exfalso
        have hv : mid ∈ l.filterMap (fun p => p.memberId) :=
          List.mem_filterMap.mpr ⟨p₂, h₂', hm₂⟩
        have h' : mid ∉ l.filterMap (fun p => p.memberId) ∧
            (l.filterMap (fun p => p.memberId)).Nodup := by
          simpa [List.filterMap_cons, hm₁, List.nodup_cons] using h
        exact h'.1 hv
    · rcases List.mem_cons.mp h₂ with rfl | h₂'
      · exfalso
        have hv : mid ∈ l.filterMap (fun p => p.memberId) :=
          List.mem_filterMap.mpr ⟨p₁, h₁', hm₁⟩
        have h' : mid ∉ l.filterMap (fun p => p.memberId) ∧
            (l.filterMap (fun p => p.memberId)).Nodup := by
          simpa [List.filterMap_cons, hm₂, List.nodup_cons] using h
        exact h'.1 hv
      · exact ih htl p₁ h₁' p₂ h₂' mid hm₁ hm₂

theorem hits_short (s : Remote) (hwf : WfP s) (mid : Nat) :
    (s.participants.filter
      (fun p => p.teamId = some mid || p.memberId = some mid)).length ≤ 1 := by
  obtain ⟨hw1, hw2, hw3, hw4⟩ := hwf
  have hfe : s.participants.filter
      (fun p => p.teamId = some mid || p.memberId = some mid) =
      s.participants.filter (fun p => p.memberId = some mid) := by
    apply List.filter_congr
    intro p hp
    rw [hw4 p hp]
    simp
  rw [hfe]
  have hnd : (s.participants.filter (fun p => p.memberId = some mid)).Nodup :=
    (List.Nodup.of_map _ hw2).filter _
  rcases hL : s.participants.filter (fun p => p.memberId = some mid) with _ | ⟨x, _ | ⟨y, t⟩⟩
  · simp [hL]
  · simp [hL]
  · exfalso
    have hx : x ∈ s.participants.filter (fun p => p.memberId = some mid) := by
      rw [hL]; exact List.mem_cons_self _ _
    have hy : y ∈ s.participants.filter (fun p => p.memberId = some mid) := by
      rw [hL]; exact List.mem_cons.mpr (Or.inr (List.mem_cons_self _ _))
    have hxm := List.mem_filter.mp hx
    have hym := List.mem_filter.mp hy
    have hxy : x = y := memberId_inj s.participants hw3 x hxm.1 y hym.1 mid
      (by simpa using hxm.2) (by simpa using hym.2)
    rw [hL] at hnd
    rcases List.nodup_cons.mp hnd with ⟨hnx, _⟩
    exact hnx (by rw [hxy]; exact List.mem_cons_self _ _)

theorem map_upd_participantIds (l : List Participant) (pid0 : Nat) (r : String) :
    (l.map (fun q => if q.participantId = pid0 then { q with wspRole := r } else q)).map
        (fun p => p.participantId) = l.map (fun p => p.participantId) := by
  induction l with
  | nil => rfl
  | cons a l ih =>
    by_cases h : a.participantId = pid0 <;> simp [h, ih]

theorem map_upd_memberIds (l : List Participant) (pid0 : Nat) (r : String) :
    (l.map (fun q => if q.participantId = pid0 then { q with wspRole := r } else q)).filterMap
        (fun p => p.memberId) = l.filterMap (fun p => p.memberId) := by
  induction l with
  | nil => rfl
  | cons a l ih =>
    by_cases h : a.participantId = pid0 <;>
      simp [List.filterMap_cons, h, ih]

end TowerInfra

namespace TowerInfra

theorem add_participant_user_spec (r : String) (mid : Nat) (pid : Nat) (s s' : Remote)
    (ev : List Event) (hwf : WfP s)
    (h : TowerWorkspace.add_participant r mid false s = (pid, s', ev)) :
    WfP s' ∧ s'.members = s.members ∧ s.nextId ≤ s'.nextId ∧
    (∃ q ∈ s'.participants, q.participantId = pid ∧ q.memberId = some mid ∧ q.wspRole = r) ∧
    (∀ q ∈ s'.participants,
       (∃ p ∈ s.participants, p.participantId = q.participantId ∧ p.memberId = q.memberId ∧
          p.teamId = q.teamId) ∨
       (s.nextId ≤ q.participantId ∧ q.memberId = some mid)) ∧
    (∀ p ∈ s.participants, ∃ q ∈ s'.participants,
       q.participantId = p.participantId ∧ q.memberId = p.memberId) ∧
    (∀ q ∈ s.participants, q.memberId ≠ some mid → q ∈ s'.participants) := by
  obtain ⟨hw1, hw2, hw3, hw4⟩ := id hwf
  simp only [TowerWorkspace.add_participant, TowerWorkspace.set_participant_role] at h
  by_cases hlen : (s.participants.filter
      (fun p => p.teamId = some mid || p.memberId = some mid)).length = 1
  case pos =>
    simp only [if_pos hlen] at h
    obtain ⟨p₀, hp₀⟩ := List.length_eq_one.mp hlen
    rw [hp₀] at h
    simp only [List.headD_cons] at h
    rcases h with ⟨rfl, rfl, rfl⟩
    have hp₀f : p₀ ∈ s.participants.filter
        (fun p => p.teamId = some mid || p.memberId = some mid) := by
      rw [hp₀]; exact List.mem_cons_self _ _
    have hp₀mem := (List.mem_filter.mp hp₀f).1
    have hp₀mid : p₀.memberId = some mid := by
      have hc := (List.mem_filter.mp hp₀f).2
      rw [hw4 p₀ hp₀mem] at hc
      simpa using hc
    refine ⟨?_, rfl, Nat.le_refl _, ?_, ?_, ?_, ?_⟩
    · unfold WfP
      refine ⟨?_, ?_, ?_, ?_⟩
      · intro q hq
        dsimp only at hq ⊢
        obtain ⟨p, hp, rfl⟩ := List.mem_map.mp hq
        by_cases hc : p.participantId = p₀.participantId
        · simp only [if_pos hc]; exact hw1 p hp
        · simp only [if_neg hc]; exact hw1 p hp
      · dsimp only
        rw [map_upd_participantIds]
        exact hw2
      · dsimp only
        rw [map_upd_memberIds]
        exact hw3
      · intro q hq
        dsimp only at hq
        obtain ⟨p, hp, rfl⟩ := List.mem_map.mp hq
        by_cases hc : p.participantId = p₀.participantId
        · simp only [if_pos hc]; exact hw4 p hp
        · simp only [if_neg hc]; exact hw4 p hp
    · refine ⟨{ p₀ with wspRole := r }, ?_, rfl, hp₀mid, rfl⟩
      dsimp only
      have hmm := List.mem_map_of_mem (fun p => if p.participantId = p₀.participantId
          then { p with wspRole := r } else p) hp₀mem
      simpa using hmm
    · intro q hq
      dsimp only at hq
      obtain ⟨p, hp, rfl⟩ := List.mem_map.mp hq
      left
      by_cases hc : p.participantId = p₀.participantId <;>
        exact ⟨p, hp, by simp [hc]⟩
    · intro p hp
      refine ⟨(if p.participantId = p₀.participantId then { p with wspRole := r } else p),
        List.mem_map_of_mem _ hp, ?_, ?_⟩ <;>
        by_cases hc : p.participantId = p₀.participantId <;> simp [hc]
    · intro q hq hqm
      have hne : q.participantId ≠ p₀.participantId := by
        intro he
        have heq : q = p₀ := participantId_inj hw2 q hq p₀ hp₀mem he
        rw [heq] at hqm
        exact hqm hp₀mid
      dsimp only
      simpa [hne] using List.mem_map_of_mem (fun p => if p.participantId = p₀.participantId
          then { p with wspRole := r } else p) hq
  case neg =>
    simp only [if_neg hlen, Bool.false_eq_true, if_false] at h
    have hle := hits_short s hwf mid
    have h0 : (s.participants.filter
        (fun p => p.teamId = some mid || p.memberId = some mid)).length = 0 := by
      omega
    have hnil := List.length_eq_zero.mp h0
    have hnone : ∀ q ∈ s.participants, ¬(q.memberId = some mid) := by
      intro q hq hqm
      have hmf : q ∈ s.participants.filter
          (fun p => p.teamId = some mid || p.memberId = some mid) :=
        List.mem_filter.mpr ⟨hq, by simp [hqm]⟩
      rw [hnil] at hmf
      exact absurd hmf (List.not_mem_nil _)
    rcases h with ⟨rfl, rfl, rfl⟩
    have hpe : ((s.participants ++ [(⟨s.nextId, some mid, none, "launch"⟩ : Participant)]).map
        (fun p => if p.participantId = s.nextId then { p with wspRole := r } else p)) =
        s.participants ++ [(⟨s.nextId, some mid, none, r⟩ : Participant)] := by
      rw [List.map_append]
      congr 1
      · conv_rhs => rw [← List.map_id s.participants]
        apply List.map_congr_left
        intro p hp
        rw [if_neg (Nat.ne_of_lt (hw1 p hp))]
        rfl
      · simp
    refine ⟨?_, rfl, Nat.le_succ _, ?_, ?_, ?_, ?_⟩
    · unfold WfP
      refine ⟨?_, ?_, ?_, ?_⟩
      · intro q hq
        dsimp only at hq ⊢
        rw [hpe] at hq
        rcases List.mem_append.mp hq with hq' | hq'
        · exact Nat.lt_trans (hw1 q hq') (Nat.lt_succ_self _)
        · obtain rfl : q = ⟨s.nextId, some mid, none, r⟩ := by simpa using hq'
          exact Nat.lt_succ_self _
      · dsimp only
        rw [hpe, List.map_append]
        refine List.Nodup.append hw2 (List.nodup_singleton _) ?_
        intro a ha hb
        obtain ⟨p, hp, rfl⟩ := List.mem_map.mp ha
        have hb' : p.participantId = s.nextId := by simpa using hb
        exact absurd hb' (Nat.ne_of_lt (hw1 p hp))
      · dsimp only
        rw [hpe, List.filterMap_append]
        refine List.Nodup.append hw3 ?_ ?_
        · simp
        · intro a ha hb
          have hb' : a = mid := by
            simpa [List.filterMap_cons] using hb
          subst hb'
          obtain ⟨p, hp, hpm⟩ := List.mem_filterMap.mp ha
          exact hnone p hp hpm
      · intro q hq
        dsimp only at hq
        rw [hpe] at hq
        rcases List.mem_append.mp hq with hq' | hq'
        · exact hw4 q hq'
        · obtain rfl : q = ⟨s.nextId, some mid, none, r⟩ := by simpa using hq'
          rfl
    · refine ⟨⟨s.nextId, some mid, none, r⟩, ?_, rfl, rfl, rfl⟩
      dsimp only
      rw [hpe]
      exact List.mem_append.mpr (Or.inr (List.mem_cons_self _ _))
    · intro q hq
      dsimp only at hq
      rw [hpe] at hq
      rcases List.mem_append.mp hq with hq' | hq'
      · exact Or.inl ⟨q, hq', rfl, rfl, rfl⟩
      · obtain rfl : q = ⟨s.nextId, some mid, none, r⟩ := by simpa using hq'
        exact Or.inr ⟨Nat.le_refl _, rfl⟩
    · intro p hp
      refine ⟨p, ?_, rfl, rfl⟩
      dsimp only
      rw [hpe]
      exact List.mem_append.mpr (Or.inl hp)
    · intro q hq _
      dsimp only
      rw [hpe]
      exact List.mem_append.mpr (Or.inl hq)

end TowerInfra

namespace TowerInfra

theorem getLastD_of_ne_nil {α : Type} (l : List α) (h : l ≠ []) (d₁ d₂ : α) :
    l.getLastD d₁ = l.getLastD d₂ := by
  cases l with
  | nil => exact absurd rfl h
  | cons a l => rw [List.getLastD_cons, List.getLastD_cons]

theorem getLastD_append {α : Type} (l₁ l₂ : List α) (d : α) :
    (l₁ ++ l₂).getLastD d = l₂.getLastD (l₁.getLastD d) := by
  induction l₁ generalizing d with
  | nil => rfl
  | cons a l₁ ih => rw [List.cons_append, List.getLastD_cons, List.getLastD_cons, ih]

theorem lastRoleFor_cons_mem (x : Nat × String) (pairs : List (Nat × String)) (mid : Nat)
    (h : mid ∈ pairs.map Prod.fst) :
    lastRoleFor (x :: pairs) mid = lastRoleFor pairs mid := by
  obtain ⟨y, hy, hy1⟩ := List.mem_map.mp h
  have hyf : y ∈ pairs.filter (fun z => z.1 = mid) :=
    List.mem_filter.mpr ⟨hy, by simp [hy1]⟩
  unfold lastRoleFor
  by_cases hx : x.1 = mid
  · rw [show (x :: pairs).filter (fun z => z.1 = mid) =
        x :: pairs.filter (fun z => z.1 = mid) from by simp [List.filter_cons, hx]]
    rw [List.map_cons, List.getLastD_cons]
    apply getLastD_of_ne_nil
    intro h0
    have hlen0 : (pairs.filter (fun z => z.1 = mid)).length = 0 := by
      simpa using congrArg List.length h0
    have hfe : pairs.filter (fun z => z.1 = mid) = [] := List.length_eq_zero.mp hlen0
    rw [hfe] at hyf
    exact List.not_mem_nil _ hyf
  · rw [show (x :: pairs).filter (fun z => z.1 = mid) =
        pairs.filter (fun z => z.1 = mid) from by simp [List.filter_cons, hx]]

theorem upsert_users_spec (dus : List (String × String)) :
    ∀ (s : Remote) (acc pids : List Nat) (t : Remote) (ev : List Event),
      WfP s →
      TowerWorkspace.upsert_users dus s acc = .ok (pids, t, ev) →
      WfP t ∧ t.members = s.members ∧ s.nextId ≤ t.nextId ∧
      (∀ i ∈ acc, i ∈ pids) ∧
      (∀ i ∈ pids, i ∈ acc ∨ ∃ q ∈ t.participants, q.participantId = i ∧
         ∃ x ∈ desiredPairs s.members dus, q.memberId = some x.1) ∧
      (∀ q ∈ t.participants,
         (∃ p ∈ s.participants, p.participantId = q.participantId ∧
            p.memberId = q.memberId ∧ p.teamId = q.teamId) ∨
         (s.nextId ≤ q.participantId ∧ ∃ x ∈ desiredPairs s.members dus,
            q.memberId = some x.1)) ∧
      (∀ p ∈ s.participants, ∃ q ∈ t.participants,
         q.participantId = p.participantId ∧ q.memberId = p.memberId) ∧
      (∀ q ∈ s.participants, (∀ x ∈ desiredPairs s.members dus, q.memberId ≠ some x.1) →
         q ∈ t.participants) ∧
      (∀ mid ∈ (desiredPairs s.members dus).map Prod.fst,
         ∃ q ∈ t.participants, q.memberId = some mid ∧
           q.wspRole = lastRoleFor (desiredPairs s.members dus) mid ∧
           q.participantId ∈ pids) := by
  induction dus with
  | nil =>
    intro s acc pids t ev hwf h
    rw [TowerWorkspace.upsert_users] at h
    simp only [Except.ok.injEq, Prod.mk.injEq] at h
    obtain ⟨rfl, rfl, rfl⟩ := h
    refine ⟨hwf, rfl, Nat.le_refl _, fun i hi => hi, fun i hi => Or.inl hi,
      fun q hq => Or.inl ⟨q, hq, rfl, rfl, rfl⟩, fun p hp => ⟨p, hp, rfl, rfl⟩,
      fun q hq _ => hq, ?_⟩
    intro mid hmid
    simp [desiredPairs] at hmid
  | cons ur rest ih =>
    obtain ⟨u, r⟩ := ur
    intro s acc pids t ev hwf h
    rw [TowerWorkspace.upsert_users] at h
    rcases hm : TowerWorkspace.memberLookup s u with _ | m
    · rw [hm] at h
      simp at h
    rw [hm] at h
    dsimp only at h
    rcases ha : TowerWorkspace.add_participant r m.memberId false s with ⟨pid₁, s₁, ev₁⟩
    rw [ha] at h
    dsimp only at h
    rcases hrec : TowerWorkspace.upsert_users rest s₁ (acc ++ [pid₁]) with e | ⟨pids₂, t₂, ev₂⟩
    · rw [hrec] at h
      simp at h
    rw [hrec] at h
    simp only [Except.ok.injEq, Prod.mk.injEq] at h
    obtain ⟨rfl, rfl, rfl⟩ := h
    obtain ⟨hA1, hA2, hA3, hA4, hA5, hA6, hA7⟩ :=
      add_participant_user_spec r m.memberId pid₁ s s₁ ev₁ hwf ha
    obtain ⟨hB1, hB2, hB3, hB4, hB5, hB6, hB7, hB8, hB9⟩ :=
      ih s₁ (acc ++ [pid₁]) pids₂ t₂ ev₂ hA1 hrec
    have hdp : desiredPairs s₁.members rest = desiredPairs s.members rest := by rw [hA2]
    have hfind : s.members.find? (fun mm => mm.email = u) = some m := hm
    have hdc : desiredPairs s.members ((u, r) :: rest) =
        (m.memberId, r) :: desiredPairs s.members rest := by
      have hstep : desiredPairs s.members ((u, r) :: rest) =
          match s.members.find? (fun mm => mm.email = u) with
          | some mm => (mm.memberId, r) :: desiredPairs s.members rest
          | none => desiredPairs s.members rest := rfl
      rw [hstep, hfind]
    refine ⟨hB1, hB2.trans hA2, Nat.le_trans hA3 hB3, ?_, ?_, ?_, ?_, ?_, ?_⟩
    · intro i hi
      exact hB4 i (List.mem_append.mpr (Or.inl hi))
    · intro i hi
      rcases hB5 i hi with hacc | ⟨q, hq, hqi, x, hx, hxm⟩
      · rcases List.mem_append.mp hacc with h' | h'
        · exact Or.inl h'
        · have hieq : i = pid₁ := by simpa using h'
          subst hieq
          obtain ⟨q₀, hq₀, hq₀i, hq₀m, _⟩ := hA4
          obtain ⟨q', hq', hq'i, hq'm⟩ := hB7 q₀ hq₀
          refine Or.inr ⟨q', hq', by rw [hq'i, hq₀i], (m.memberId, r), ?_,
            by rw [hq'm, hq₀m]⟩
          rw [hdc]
          exact List.mem_cons_self _ _
      · refine Or.inr ⟨q, hq, hqi, x, ?_, hxm⟩
        rw [hdc]
        exact List.mem_cons.mpr (Or.inr (hdp ▸ hx))
    · intro q hq
      rcases hB6 q hq with ⟨p', hp', hpi, hpm, hpt⟩ | ⟨hle, x, hx, hxm⟩
      · rcases hA5 p' hp' with ⟨p, hp, hqi2, hqm2, hqt2⟩ | ⟨hle2, hm2⟩
        · exact Or.inl ⟨p, hp, by rw [hqi2, hpi], by rw [hqm2, hpm], by rw [hqt2, hpt]⟩
        · refine Or.inr ⟨by omega, (m.memberId, r), ?_, by rw [← hpm]; exact hm2⟩
          rw [hdc]
          exact List.mem_cons_self _ _
      · refine Or.inr ⟨Nat.le_trans hA3 hle, x, ?_, hxm⟩
        rw [hdc]
        exact List.mem_cons.mpr (Or.inr (hdp ▸ hx))
    · intro p hp
      obtain ⟨q₁, hq₁, hi₁, hm₁⟩ := hA6 p hp
      obtain ⟨q₂, hq₂, hi₂, hm₂⟩ := hB7 q₁ hq₁
      exact ⟨q₂, hq₂, by rw [hi₂, hi₁], by rw [hm₂, hm₁]⟩
    · intro q hq hnd
      have hq₁ : q ∈ s₁.participants :=
        hA7 q hq (hnd (m.memberId, r) (by rw [hdc]; exact List.mem_cons_self _ _))
      apply hB8 q hq₁
      intro x hx
      exact hnd x (by rw [hdc]; exact List.mem_cons.mpr (Or.inr (hdp ▸ hx)))
    · intro mid hmid
      rw [hdc] at hmid
      simp only [List.map_cons] at hmid
      by_cases hmem2 : mid ∈ (desiredPairs s.members rest).map Prod.fst
      · obtain ⟨q, hq, hqm, hqr, hqp⟩ := hB9 mid (by rw [hdp]; exact hmem2)
        refine ⟨q, hq, hqm, ?_, hqp⟩
        rw [hqr, hdp, hdc, lastRoleFor_cons_mem _ _ _ hmem2]
      · have hmid_eq : mid = m.memberId := by
          rcases List.mem_cons.mp hmid with h' | h'
          · exact h'
          · exact absurd h' hmem2
        subst hmid_eq
        obtain ⟨q₀, hq₀, hq₀i, hq₀m, hq₀r⟩ := hA4
        have hq₀t : q₀ ∈ t₂.participants := by
          apply hB8 q₀ hq₀
          intro x hx hxm
          rw [hq₀m] at hxm
          have hx1 : x.1 = m.memberId := by
            have := hxm.symm
            simpa using this
          exact hmem2 (List.mem_map.mpr ⟨x, hdp ▸ hx, hx1⟩)
        have hempty : (desiredPairs s.members rest).filter (fun z => z.1 = m.memberId) = [] := by
          rcases hF : (desiredPairs s.members rest).filter (fun z => z.1 = m.memberId)
            with _ | ⟨y, ys⟩
          · exact hF
          · exfalso
            have hyf : y ∈ (desiredPairs s.members rest).filter
                (fun z => z.1 = m.memberId) := by
              rw [hF]; exact List.mem_cons_self _ _
            have hym := List.mem_filter.mp hyf
            exact hmem2 (List.mem_map.mpr ⟨y, hym.1, by simpa using hym.2⟩)
        refine ⟨q₀, hq₀t, hq₀m, ?_, ?_⟩
        · rw [hq₀r, hdc]
          unfold lastRoleFor
          rw [show ((m.memberId, r) :: desiredPairs s.members rest).filter
                (fun z => z.1 = m.memberId)
              = [(m.memberId, r)] from by simp [List.filter_cons, hempty]]
          rfl
        · rw [hq₀i]
          exact hB4 pid₁ (List.mem_append.mpr (Or.inr (List.mem_cons_self _ _)))

end TowerInfra

namespace TowerInfra

theorem remove_stale_spec (verified : List Nat) :
    ∀ (l : List Participant) (s : Remote),
      (TowerWorkspace.remove_stale verified l s).1.participants =
        s.participants.filter (fun p => verified.contains p.participantId ||
          !(l.any (fun q => q.participantId = p.participantId))) ∧
      (TowerWorkspace.remove_stale verified l s).1.members = s.members ∧
      (TowerWorkspace.remove_stale verified l s).1.nextId = s.nextId := by
  intro l
  induction l with
  | nil =>
    intro s
    refine ⟨?_, rfl, rfl⟩
    have h1 : s.participants.filter (fun p => verified.contains p.participantId ||
        !(([] : List Participant).any (fun q => q.participantId = p.participantId))) =
        s.participants.filter (fun _ => true) :=
      (List.filter_congr (fun p _ => by simp)).symm.symm
    rw [TowerWorkspace.remove_stale, h1, List.filter_true]
  | cons p rest ih =>
    intro s
    rw [TowerWorkspace.remove_stale]
    by_cases hv : p.participantId ∈ verified
    · rw [if_pos hv]
      obtain ⟨ih1, ih2, ih3⟩ := ih s
      refine ⟨?_, ih2, ih3⟩
      rw [ih1]
      apply List.filter_congr
      intro x hx
      by_cases hc : x.participantId ∈ verified
      · simp [hc]
      · have hne : ¬(p.participantId = x.participantId) := by
          intro he
          rw [← he] at hc
          exact hc hv
        simp [hc, List.any_cons, hne]
    · rw [if_neg hv]
      dsimp only
      obtain ⟨ih1, ih2, ih3⟩ := ih ((TowerWorkspace.remove_participant p.participantId s).1)
      refine ⟨?_, ih2, ih3⟩
      rw [ih1, TowerWorkspace.remove_participant]
      dsimp only
      rw [List.filter_filter]
      apply List.filter_congr
      intro x hx
      by_cases hxv : x.participantId ∈ verified
      · have hne : ¬(x.participantId = p.participantId) := by
          intro he
          rw [he] at hxv
          exact hv hxv
        have hne' : ¬(p.participantId = x.participantId) := fun h => hne h.symm
        simp [hxv, hne, hne', List.any_cons]
      · by_cases hx1 : x.participantId = p.participantId
        · simp [hxv, hx1, hv, List.any_cons]
        · have hx2 : ¬(p.participantId = x.participantId) := fun h => hx1 h.symm
          simp [hxv, hx1, hx2, List.any_cons]

theorem populate_decompose (us : Users) (cfg : WsConfig) (s t : Remote) (ev : List Event)
    (hus : cfg.users = some us) (hteams : cfg.teams = none)
    (h : TowerWorkspace.populate cfg s = .ok (t, ev)) :
    ∃ pids s₁ ev₁,
      TowerWorkspace.upsert_users us.list_users s [] = .ok (pids, s₁, ev₁) ∧
      t.participants = s₁.participants.filter
        (fun p => (TowerWorkspace.list_owner_participant_ids s ++ pids).contains
          p.participantId) ∧
      t.members = s₁.members := by
  rw [TowerWorkspace.populate, hus] at h
  dsimp only at h
  rcases hup : TowerWorkspace.upsert_users us.list_users s [] with e | ⟨pids, s₁, ev₁⟩
  · rw [hup] at h
    simp at h
  rw [hup] at h
  dsimp only at h
  rw [TowerWorkspace.populate_teams, hteams] at h
  dsimp only at h
  simp only [Except.ok.injEq, Prod.mk.injEq] at h
  obtain ⟨rfl, rfl⟩ := h
  obtain ⟨h1, h2, h3⟩ := remove_stale_spec
    (TowerWorkspace.list_owner_participant_ids s ++ pids) s₁.participants s₁
  refine ⟨pids, s₁, ev₁, rfl, ?_, h2⟩
  rw [h1]
  apply List.filter_congr
  intro x hx
  have hany : s₁.participants.any (fun q => q.participantId = x.participantId) = true :=
    List.any_eq_true.mpr ⟨x, hx, by simp⟩
  simp [hany]

end TowerInfra

namespace TowerInfra

/-- C2: `populate` reconciles the participant set: whenever it succeeds on a
well-formed remote state, (1) every surviving participant is either a
desired user or a pre-existing owner, (2) every desired member is present
with the role of its last processed occurrence, (3) pre-existing owners
outside the desired set are preserved verbatim, and (4) every other
pre-existing participant is removed. -/
theorem populate_reconciles (us : Users) (cfg : WsConfig) (s t : Remote) (ev : List Event)
    (hus : cfg.users = some us) (hteams : cfg.teams = none) (hwf : WfP s)
    (h : TowerWorkspace.populate cfg s = .ok (t, ev)) :
    (∀ q ∈ t.participants,
       (∃ x ∈ desiredPairs s.members us.list_users, q.memberId = some x.1) ∨
       (∃ p ∈ s.participants, p.participantId = q.participantId ∧ p.wspRole = "owner")) ∧
    (∀ mid ∈ (desiredPairs s.members us.list_users).map Prod.fst,
       ∃ q ∈ t.participants, q.memberId = some mid ∧
         q.wspRole = lastRoleFor (desiredPairs s.members us.list_users) mid) ∧
    (∀ p ∈ s.participants, p.wspRole = "owner" →
       (∀ x ∈ desiredPairs s.members us.list_users, p.memberId ≠ some x.1) →
       p ∈ t.participants) ∧
    (∀ p ∈ s.participants, p.wspRole ≠ "owner" →
       (∀ x ∈ desiredPairs s.members us.list_users, p.memberId ≠ some x.1) →
       ∀ q ∈ t.participants, q.participantId ≠ p.participantId) := by
  obtain ⟨pids, s₁, ev₁, hup, hpart, hmemf⟩ := populate_decompose us cfg s t ev hus hteams h
  obtain ⟨hB1, hB2, hB3, hB4, hB5, hB6, hB7, hB8, hB9⟩ :=
    upsert_users_spec us.list_users s [] pids s₁ ev₁ hwf hup
  obtain ⟨hw1, hw2, hw3, hw4⟩ := id hwf
  obtain ⟨hs1a, hs1b, hs1c, hs1d⟩ := id hB1
  refine ⟨?_, ?_, ?_, ?_⟩
  · intro q hq
    rw [hpart] at hq
    obtain ⟨hq1, hq2⟩ := List.mem_filter.mp hq
    have hq2' : q.participantId ∈ TowerWorkspace.list_owner_participant_ids s ++ pids := by
      simpa using hq2
    rcases List.mem_append.mp hq2' with ho | hp
    · right
      unfold TowerWorkspace.list_owner_participant_ids at ho
      obtain ⟨p', hp', hpe⟩ := List.mem_map.mp ho
      obtain ⟨hp'm, hp'r⟩ := List.mem_filter.mp hp'
      exact ⟨p', hp'm, hpe, by simpa using hp'r⟩
    · left
      rcases hB5 q.participantId hp with hacc | ⟨q', hq', hq'i, x, hx, hxm⟩
      · exact absurd hacc (List.not_mem_nil _)
      · have heq : q' = q := participantId_inj hs1b q' hq' q hq1 hq'i
        rw [heq] at hxm
        exact ⟨x, hx, hxm⟩
  · intro mid hmid
    obtain ⟨q, hq, hqm, hqr, hqp⟩ := hB9 mid hmid
    refine ⟨q, ?_, hqm, hqr⟩
    rw [hpart]
    refine List.mem_filter.mpr ⟨hq, ?_⟩
    have hmm : q.participantId ∈ TowerWorkspace.list_owner_participant_ids s ++ pids :=
      List.mem_append.mpr (Or.inr hqp)
    simpa using hmm
  · intro p hp hpr hnd
    have hp₁ : p ∈ s₁.participants := hB8 p hp hnd
    rw [hpart]
    refine List.mem_filter.mpr ⟨hp₁, ?_⟩
    have hmm : p.participantId ∈ TowerWorkspace.list_owner_participant_ids s ++ pids := by
      refine List.mem_append.mpr (Or.inl ?_)
      unfold TowerWorkspace.list_owner_participant_ids
      exact List.mem_map.mpr ⟨p, List.mem_filter.mpr ⟨hp, by simp [hpr]⟩, rfl⟩
    simpa using hmm
  · intro p hp hpr hnd q hq he
    rw [hpart] at hq
    obtain ⟨hq1, hq2⟩ := List.mem_filter.mp hq
    have hq2' : q.participantId ∈ TowerWorkspace.list_owner_participant_ids s ++ pids := by
      simpa using hq2
    rw [he] at hq2'
    rcases List.mem_append.mp hq2' with ho | hpd
    · unfold TowerWorkspace.list_owner_participant_ids at ho
      obtain ⟨p', hp', hpe⟩ := List.mem_map.mp ho
      obtain ⟨hp'm, hp'r⟩ := List.mem_filter.mp hp'
      have hpp : p' = p := participantId_inj hw2 p' hp'm p hp hpe
      rw [hpp] at hp'r
      exact hpr (by simpa using hp'r)
    · rcases hB5 p.participantId hpd with hacc | ⟨q', hq', hq'i, x, hx, hxm⟩
      · exact absurd hacc (List.not_mem_nil _)
      · rcases hB6 q' hq' with ⟨p'', hp'', hpi2, hpm2, _⟩ | ⟨hle, y, hy, hym⟩
        · have hpp : p'' = p := participantId_inj hw2 p'' hp'' p hp (by rw [hpi2, hq'i])
          exact hnd x hx (by rw [← hpp, hpm2]; exact hxm)
        · have hcon := hw1 p hp
          rw [hq'i] at hle
          omega

/-- C2 witness: on the fixture (existing participants alice: view,
bob: maintain, carol: owner; desired alice: maintain, dana: view), the
reconciled workspace keeps carol's owner entry verbatim and holds a
participant for dana's member id with the desired viewer role. -/
theorem populate_reconciles_witness :
    (⟨12, some 3, none, "owner"⟩ : Participant) ∈ popFinalFix.participants ∧
    ∃ q ∈ popFinalFix.participants, q.memberId = some 4 ∧
      q.wspRole = lastRoleFor (desiredPairs remoteFix.members usersFix.list_users) 4 :=
  ⟨(populate_reconciles usersFix cfgFix remoteFix popFinalFix popTraceFix rfl rfl
      (by decide) (by rfl)).2.2.1
    ⟨12, some 3, none, "owner"⟩ (by decide) rfl (by decide),
   (populate_reconciles usersFix cfgFix remoteFix popFinalFix popTraceFix rfl rfl
      (by decide) (by rfl)).2.1 4 (by decide)⟩

end TowerInfra

namespace TowerInfra

theorem desiredPairs_mem (ms : List Member) :
    ∀ (dus : List (String × String)) (x : String × String) (m : Member),
      x ∈ dus → ms.find? (fun mm => mm.email = x.1) = some m →
      (m.memberId, x.2) ∈ desiredPairs ms dus := by
  intro dus
  induction dus with
  | nil => intro x m hx _; exact absurd hx (List.not_mem_nil _)
  | cons y rest ih =>
    intro x m hx hf
    have hstep : desiredPairs ms (y :: rest) =
        match ms.find? (fun mm => mm.email = y.1) with
        | some mm => (mm.memberId, y.2) :: desiredPairs ms rest
        | none => desiredPairs ms rest := rfl
    rcases List.mem_cons.mp hx with rfl | hx'
    · rw [hstep, hf]
      exact List.mem_cons_self _ _
    · rw [hstep]
      rcases hfy : ms.find? (fun mm => mm.email = y.1) with _ | my
      · rw [hfy]
        exact ih x m hx' hf
      · rw [hfy]
        exact List.mem_cons.mpr (Or.inr (ih x m hx' hf))

theorem desiredPairs_filter_eq (ms : List Member) (e : String) (m : Member)
    (hm : ms.find? (fun mm => mm.email = e) = some m) :
    ∀ (dus : List (String × String)),
      (∀ x ∈ dus, x.1 ≠ e →
        (ms.find? (fun mm => mm.email = x.1)).map Member.memberId ≠ some m.memberId) →
      (desiredPairs ms dus).filter (fun z => z.1 = m.memberId) =
        (dus.filter (fun x => x.1 = e)).map (fun x => (m.memberId, x.2)) := by
  intro dus
  induction dus with
  | nil => intro _; rfl
  | cons y rest ih =>
    intro hinj
    have hstep : desiredPairs ms (y :: rest) =
        match ms.find? (fun mm => mm.email = y.1) with
        | some mm => (mm.memberId, y.2) :: desiredPairs ms rest
        | none => desiredPairs ms rest := rfl
    have ihr := ih (fun x hx => hinj x (List.mem_cons.mpr (Or.inr hx)))
    by_cases hye : y.1 = e
    · have hval : desiredPairs ms (y :: rest) =
          (m.memberId, y.2) :: desiredPairs ms rest := by
        rw [hstep, show ms.find? (fun mm => mm.email = y.1) = some m from by
          rw [hye]; exact hm]
      rw [hval]
      rw [show ((m.memberId, y.2) :: desiredPairs ms rest).filter
            (fun z => z.1 = m.memberId)
          = (m.memberId, y.2) :: (desiredPairs ms rest).filter (fun z => z.1 = m.memberId)
          from by simp [List.filter_cons]]
      rw [show (y :: rest).filter (fun x => x.1 = e) = y :: rest.filter (fun x => x.1 = e)
          from by simp [List.filter_cons, hye]]
      rw [List.map_cons, ihr]
    · rcases hfy : ms.find? (fun mm => mm.email = y.1) with _ | my
      · have hval : desiredPairs ms (y :: rest) = desiredPairs ms rest := by
          rw [hstep, hfy]
        rw [hval, show (y :: rest).filter (fun x => x.1 = e) = rest.filter (fun x => x.1 = e)
            from by simp [List.filter_cons, hye]]
        exact ihr
      · have hval : desiredPairs ms (y :: rest) =
            (my.memberId, y.2) :: desiredPairs ms rest := by
          rw [hstep, hfy]
        have hne : ¬(my.memberId = m.memberId) := by
          have hh := hinj y (List.mem_cons_self _ _) hye
          rw [hfy] at hh
          simpa using hh
        rw [hval]
        rw [show ((my.memberId, y.2) :: desiredPairs ms rest).filter
              (fun z => z.1 = m.memberId)
            = (desiredPairs ms rest).filter (fun z => z.1 = m.memberId)
            from by simp [List.filter_cons, hne]]
        rw [show (y :: rest).filter (fun x => x.1 = e) = rest.filter (fun x => x.1 = e)
            from by simp [List.filter_cons, hye]]
        exact ihr

theorem bucket_roles (b : List String) (e role : String) :
    ∀ d : String,
      ((((b.map (fun x => (x, role))).filter (fun x => x.1 = e)).map Prod.snd).getLastD d) =
        if b.contains e then role else d := by
  induction b with
  | nil => intro d; simp
  | cons a b ih =>
    intro d
    by_cases hae : a = e
    · rw [show ((a :: b).map (fun x => (x, role))).filter (fun x => x.1 = e)
          = (a, role) :: ((b.map (fun x => (x, role))).filter (fun x => x.1 = e))
          from by simp [List.filter_cons, hae]]
      rw [List.map_cons, List.getLastD_cons, ih role]
      rw [show (a :: b).contains e = true from by simp [List.contains_cons, hae]]
      by_cases hb : b.contains e <;> simp [hb]
    · have hea : ¬(e = a) := fun hh => hae hh.symm
      rw [show ((a :: b).map (fun x => (x, role))).filter (fun x => x.1 = e)
          = (b.map (fun x => (x, role))).filter (fun x => x.1 = e)
          from by simp [List.filter_cons, hae]]
      rw [ih d, show (a :: b).contains e = b.contains e
          from by simp [List.contains_cons, hea]]

theorem list_users_last_role (us : Users) (e : String) :
    ((us.list_users.filter (fun x => x.1 = e)).map Prod.snd).getLastD "launch" =
      lastBucketRole us e := by
  unfold Users.list_users lastBucketRole
  rw [List.filter_append, List.filter_append, List.filter_append, List.filter_append]
  rw [List.map_append, List.map_append, List.map_append, List.map_append]
  rw [getLastD_append, getLastD_append, getLastD_append, getLastD_append]
  rw [bucket_roles, bucket_roles, bucket_roles, bucket_roles, bucket_roles]

end TowerInfra

namespace TowerInfra

/-- C10: if an email appears in several role buckets of a desired user set
(and no other desired email resolves to the same member), then after a
successful `populate` on a well-formed remote state that member holds
exactly one participant entry, whose role is the role of the last bucket
containing the email in the fixed order owners, admins, maintainers,
launchers, viewers — because `add_participant` re-sets the role on every
occurrence. -/
theorem duplicate_identity_last_bucket_role (us : Users) (cfg : WsConfig)
    (s t : Remote) (ev : List Event) (e : String) (m : Member)
    (hus : cfg.users = some us) (hteams : cfg.teams = none) (hwf : WfP s)
    (h : TowerWorkspace.populate cfg s = .ok (t, ev))
    (hm : TowerWorkspace.memberLookup s e = some m)
    (hdup : 2 ≤ (us.list_users.filter (fun x => x.1 = e)).length)
    (hinj : ∀ x ∈ us.list_users, x.1 ≠ e →
      (TowerWorkspace.memberLookup s x.1).map Member.memberId ≠ some m.memberId) :
    ∃ q ∈ t.participants, q.memberId = some m.memberId ∧
      q.wspRole = lastBucketRole us e ∧
      ∀ q' ∈ t.participants, q'.memberId = some m.memberId → q' = q := by
  obtain ⟨pids, s₁, ev₁, hup, hpart, hmemf⟩ := populate_decompose us cfg s t ev hus hteams h
  obtain ⟨hB1, hB2, hB3, hB4, hB5, hB6, hB7, hB8, hB9⟩ :=
    upsert_users_spec us.list_users s [] pids s₁ ev₁ hwf hup
  obtain ⟨hs1a, hs1b, hs1c, hs1d⟩ := id hB1
  have hfind : s.members.find? (fun mm => mm.email = e) = some m := hm
  have hne : us.list_users.filter (fun x => x.1 = e) ≠ [] := by
    intro h0
    rw [h0] at hdup
    simp at hdup
  obtain ⟨y, hyf⟩ := List.exists_mem_of_ne_nil _ hne
  obtain ⟨hy, hy1⟩ := List.mem_filter.mp hyf
  have hy1' : y.1 = e := by simpa using hy1
  have hmemD : (m.memberId, y.2) ∈ desiredPairs s.members us.list_users :=
    desiredPairs_mem s.members us.list_users y m hy (by rw [hy1']; exact hfind)
  have hmidD : m.memberId ∈ (desiredPairs s.members us.list_users).map Prod.fst :=
    List.mem_map.mpr ⟨(m.memberId, y.2), hmemD, rfl⟩
  obtain ⟨q, hq, hqm, hqr, hqp⟩ := hB9 m.memberId hmidD
  have hfilter := desiredPairs_filter_eq s.members e m hfind us.list_users
    (fun x hx hxe => hinj x hx hxe)
  have hrole : lastRoleFor (desiredPairs s.members us.list_users) m.memberId =
      lastBucketRole us e := by
    unfold lastRoleFor
    rw [hfilter, List.map_map]
    rw [show (Prod.snd ∘ fun x : String × String => (m.memberId, x.2)) =
        (Prod.snd : String × String → String) from funext (fun x => rfl)]
    exact list_users_last_role us e
  have hqt : q ∈ t.participants := by
    rw [hpart]
    refine List.mem_filter.mpr ⟨hq, ?_⟩
    have hmm : q.participantId ∈ TowerWorkspace.list_owner_participant_ids s ++ pids :=
      List.mem_append.mpr (Or.inr hqp)
    simpa using hmm
  refine ⟨q, hqt, hqm, by rw [hqr, hrole], ?_⟩
  intro q' hq' hq'm
  rw [hpart] at hq'
  have hq'1 := (List.mem_filter.mp hq').1
  exact memberId_inj s₁.participants hs1c q' hq'1 q hq m.memberId hq'm hqm

/-- C10 witness: with dana listed as both a maintainer and a viewer, the
reconciled workspace holds exactly one participant for dana's member id,
carrying the viewer role (the last bucket in processing order). -/
theorem duplicate_identity_last_bucket_role_witness :
    ∃ q ∈ popDupFinalFix.participants, q.memberId = some 4 ∧
      q.wspRole = lastBucketRole usersDupFix "dana@example.org" ∧
      ∀ q' ∈ popDupFinalFix.participants, q'.memberId = some 4 → q' = q :=
  duplicate_identity_last_bucket_role usersDupFix cfgDupFix remoteFix popDupFinalFix
    popDupTraceFix "dana@example.org" ⟨4, "dana@example.org"⟩ rfl rfl (by decide) (by rfl)
    (by rfl) (by decide) (by decide)

end TowerInfra
